import Mathlib

/-!
A shallow embedding of the reconciliation / idempotent-creation engine of
`import_jira_hierarchy.py` together with the pagination loop `fetch_all` of
`export_jira_hierarchy.py`.

Modelling conventions:
* A destination issue is `(key, kind, summary, parent)`.  The Epic-Name custom
  field and the informational `*_key` CSV columns do not influence any of the
  modelled behaviour and are omitted.
* The Jira client is modelled as a `Tracker` (the list of issues of the
  destination project, in pagination order, plus a fresh-key counter).
  `search_issues` returns the slice `(issues.drop startAt).take maxResults`.
* Every network round trip of the script is recorded in a `trace : List Call`;
  stderr output relevant to the claims is recorded in `logs : List Log`.
* The two `while True` pagination loops are written with explicit fuel
  (`length + 1` steps always suffice, see `indexGo_spec` / `fetchGo_spec`),
  so that all definitions stay structurally recursive and executable.
* `add_issues_to_epic` may fail per batch; this is modelled by a failure
  oracle `fail : Nat → List Nat → Bool` consulted at each linking call.
  Creation calls are modelled as succeeding (a creation failure propagates
  and aborts the run in the source; no claim is about that path).
* `main()` returns `None` on every completed path, so the process exit
  status is `0`; `mainExit` records this pair.
-/

/-- Python `str.lower()` (character-wise ASCII lowering; all strings the
script compares case-insensitively are plain ASCII).  Defined over the
character list so that it evaluates inside the kernel. -/
def pyLower (s : String) : String := ⟨s.data.map Char.toLower⟩

/-- Python `str.strip()`: drop leading and trailing whitespace. -/
def pyStrip (s : String) : String :=
  ⟨((s.data.dropWhile Char.isWhitespace).reverse.dropWhile Char.isWhitespace).reverse⟩

/-- A destination issue: key, issue-type name, summary and optional parent key. -/
structure Issue where
  key : Nat
  kind : String
  summary : String
  parent : Option Nat
deriving DecidableEq

/-- The destination project: its issues in pagination order plus a fresh-key counter. -/
structure Tracker where
  issues : List Issue
  nextKey : Nat
deriving DecidableEq

/-- One CSV row after `load_rows`: the three summary columns (the `*_key`
columns are carried through by the script but never used for identity). -/
structure Row where
  epic_summary : String
  task_summary : String
  subtask_summary : String
deriving DecidableEq

/-- The CLI surface consumed by `main`: `--dry-run` and `--batch-size`.
`--project-key` and `--epic-name-field` do not influence modelled behaviour. -/
structure Config where
  dryRun : Bool
  batchSize : Nat
deriving DecidableEq

/-- A value stored in `epic_map` / `task_map`: either a real `jira.Issue` or
the `object()` placeholder used in dry-run.  `isinstance(x, Issue)` checks in
the source correspond to matching on `Handle.real`. -/
inductive Handle where
  | real (issue : Issue)
  | placeholder
deriving DecidableEq

/-- One Jira round trip issued by the script. -/
inductive Call where
  | search
  | create (kind summary : String) (parent : Option Nat)
  | getIssue (key : Nat)
  | addToEpic (epicKey : Nat) (taskKeys : List Nat)
deriving DecidableEq

/-- The stderr lines of `main` that matter to the claims. -/
inductive Log where
  | dryCreateEpic (summary : String)
  | createdEpic (key : Nat) (summary : String)
  | dryCreateTask (summary : String)
  | createdTask (key : Nat) (summary : String)
  | orderError (taskSummary : String)
  | dryCreateSub (sub task : String)
  | createdSub (parentKey : Option Nat) (sub : String)
  | dryLinkNote
  | linked (count : Nat) (epicKey : Nat)
  | linkFailed (epicKey : Nat)
deriving DecidableEq

/-- The `{(issuetype.lower(), summary.lower()): Issue}` dictionary, as an
association list in insertion order (keys are unique by construction). -/
abbrev Idx := List ((String × String) × Issue)

/-- Python `m.get(k)` for association lists (first binding wins). -/
def lookupA {κ α : Type} [BEq κ] : List (κ × α) → κ → Option α
  | [], _ => none
  | e :: rest, k => if e.1 == k then some e.2 else lookupA rest k

/-- Python `idx.get(k)`. -/
abbrev idxFind (idx : Idx) (k : String × String) : Option Issue := lookupA idx k

/-- Python `idx.setdefault(k, v)`: keeps the first value seen for a key. -/
def idxSetdefault (idx : Idx) (k : String × String) (v : Issue) : Idx :=
  if (idxFind idx k).isSome then idx else idx ++ [(k, v)]

/-- Python `idx[k] = v`. -/
def idxSet : Idx → String × String → Issue → Idx
  | [], k, v => [(k, v)]
  | e :: rest, k, v => if e.1 == k then (k, v) :: rest else e :: idxSet rest k v

/-- Python `m.get(k)` / `k in m` for the string-keyed run maps. -/
abbrev alookup {α : Type} (m : List (String × α)) (k : String) : Option α := lookupA m k

/-- Python `defaultdict(list); m[k].append(v)` (insertion order preserved). -/
def addLink : List (String × List String) → String → String → List (String × List String)
  | [], k, v => [(k, [v])]
  | e :: rest, k, v =>
    if e.1 == k then (e.1, e.2 ++ [v]) :: rest else e :: addLink rest k v

/-- The pagination loop of `existing_issues_index`: pages of (up to) 100 are
requested until an *empty* page is returned.  Returns the collected issues and
the number of `search_issues` calls made.  Fueled; `length + 1` suffices. -/
def indexGo : Nat → List Issue → List Issue × Nat
  | 0, _ => ([], 0)
  | fuel + 1, remaining =>
    let chunk := remaining.take 100
    if chunk = [] then ([], 1)
    else
      let rest := indexGo fuel (remaining.drop 100)
      (chunk ++ rest.1, rest.2 + 1)

/-- The import script's pagination over the whole destination project. -/
def indexPages (issues : List Issue) : List Issue × Nat :=
  indexGo (issues.length + 1) issues

/-- The pagination loop of the exporter's `fetch_all`: pages of (up to) 100
are requested until a page *shorter than 100* is returned.  Returns the
collected issues and the number of `search_issues` calls made. -/
def fetchGo : Nat → List Issue → List Issue × Nat
  | 0, _ => ([], 0)
  | fuel + 1, remaining =>
    let batch := remaining.take 100
    if batch.length < 100 then (batch, 1)
    else
      let rest := fetchGo fuel (remaining.drop 100)
      (batch ++ rest.1, rest.2 + 1)

/-- `fetch_all` of `export_jira_hierarchy.py` (result set and call count). -/
def fetch_all (issues : List Issue) : List Issue × Nat :=
  fetchGo (issues.length + 1) issues

/-- The dictionary built by `existing_issues_index` from a list of issues:
`idx.setdefault((issuetype.lower(), summary.lower()), issue)` per issue. -/
def buildIdx (issues : List Issue) : Idx :=
  issues.foldl (fun idx i => idxSetdefault idx (pyLower i.kind, pyLower i.summary) i) []

/-- `existing_issues_index(jira, project_key)`. -/
def existing_issues_index (t : Tracker) : Idx :=
  buildIdx (indexPages t.issues).1

/-- `issue_exists(idx, issue_type, summary)`. -/
def issue_exists (idx : Idx) (issue_type summary : String) : Option Issue :=
  idxFind idx (pyLower issue_type, pyLower summary)

/-- The task-resolution expression of phase 2 evaluated against the initial
index of a destination: `issue_exists(idx, "Task", s) or issue_exists(idx, "Story", s)`. -/
def resolveTask (t : Tracker) (s : String) : Option Issue :=
  (issue_exists (existing_issues_index t) "Task" s).orElse
    (fun _ => issue_exists (existing_issues_index t) "Story" s)

/-- `range(0, len(l), b)` slicing of the link phase, as the list of batches.
Fueled; `length + 1` suffices for any positive `b` (the source's `--batch-size`
is a positive int; `b = 0` would raise in Python and yields `[]`-spam here,
filtered out by the `if not batch: continue` guard of the link loop). -/
def batchesGo : Nat → Nat → List Nat → List (List Nat)
  | 0, _, _ => []
  | fuel + 1, b, l => if l = [] then [] else l.take b :: batchesGo fuel b (l.drop b)

/-- The batches `task_keys[i : i + batch_size]` for `i in range(0, len, batch_size)`. -/
def batches (b : Nat) (l : List Nat) : List (List Nat) :=
  batchesGo (l.length + 1) b l

/-- `jira.create_issue(...)`: appends the new issue and bumps the key counter. -/
def createIssue (t : Tracker) (kind summary : String) (parent : Option Nat) : Issue × Tracker :=
  let i : Issue := ⟨t.nextKey, kind, summary, parent⟩
  (i, ⟨t.issues ++ [i], t.nextKey + 1⟩)

/-- The whole mutable state of one invocation of `main`. -/
structure St where
  tracker : Tracker
  idx : Idx
  epicMap : List (String × Handle)
  taskMap : List (String × Handle)
  links : List (String × List String)
  trace : List Call
  logs : List Log
deriving DecidableEq

/-- Failure oracle for `add_issues_to_epic(epic_key, batch)`. -/
abbrev LinkFail := Nat → List Nat → Bool

/-- Phase 1 body (`for r in rows` of the epic pass). -/
def epicStep (cfg : Config) (st : St) (r : Row) : St :=
  let summary := pyStrip r.epic_summary
  if summary = "" then st
  else if (alookup st.epicMap summary).isSome then st
  else
    match issue_exists st.idx "Epic" summary with
    | some existing =>
      { st with epicMap := st.epicMap ++ [(summary, Handle.real existing)] }
    | none =>
      if cfg.dryRun then
        { st with logs := st.logs ++ [Log.dryCreateEpic summary],
                  epicMap := st.epicMap ++ [(summary, Handle.placeholder)] }
      else
        let c := createIssue st.tracker "Epic" summary none
        { st with tracker := c.2,
                  trace := st.trace ++ [Call.create "Epic" summary none],
                  logs := st.logs ++ [Log.createdEpic c.1.key summary],
                  epicMap := st.epicMap ++ [(summary, Handle.real c.1)],
                  idx := idxSet st.idx ("epic", pyLower summary) c.1 }

/-- The TASK block of the phase 2 body (including the
`epic_to_task_summaries[epic_summary].append(task_summary)` bookkeeping). -/
def taskPart (cfg : Config) (st : St) (r : Row) : St :=
  let epic_summary := pyStrip r.epic_summary
  let task_summary := pyStrip r.task_summary
  if task_summary = "" then st
  else if (alookup st.taskMap task_summary).isSome then st
  else
    let st1 :=
      match (issue_exists st.idx "Task" task_summary).orElse
          (fun _ => issue_exists st.idx "Story" task_summary) with
      | some existing =>
        { st with taskMap := st.taskMap ++ [(task_summary, Handle.real existing)] }
      | none =>
        if cfg.dryRun then
          { st with logs := st.logs ++ [Log.dryCreateTask task_summary],
                    taskMap := st.taskMap ++ [(task_summary, Handle.placeholder)] }
        else
          let c := createIssue st.tracker "Task" task_summary none
          { st with tracker := c.2,
                    trace := st.trace ++ [Call.create "Task" task_summary none],
                    logs := st.logs ++ [Log.createdTask c.1.key task_summary],
                    taskMap := st.taskMap ++ [(task_summary, Handle.real c.1)],
                    idx := idxSet st.idx (pyLower c.1.kind, pyLower task_summary) c.1 }
    { st1 with links := addLink st1.links epic_summary task_summary }

/-- The SUB-TASK block of the phase 2 body.  The live duplicate check
`jira.issue(parent.key, fields=["subtasks"])` happens exactly when the parent
handle is a real `Issue` (also in dry-run); with a placeholder parent no
lookup is possible and `existing_sub` stays `None`. -/
def subPart (cfg : Config) (st : St) (r : Row) : St :=
  let task_summary := pyStrip r.task_summary
  let sub_summary := pyStrip r.subtask_summary
  if sub_summary = "" then st
  else
    match alookup st.taskMap task_summary with
    | none => { st with logs := st.logs ++ [Log.orderError task_summary] }
    | some (Handle.real p) =>
      let st1 := { st with trace := st.trace ++ [Call.getIssue p.key] }
      let existing_sub := (st.tracker.issues.filter (fun i => i.parent == some p.key)).find?
        (fun i => pyLower i.summary == pyLower sub_summary)
      if existing_sub.isSome then st1
      else if cfg.dryRun then
        { st1 with logs := st1.logs ++ [Log.dryCreateSub sub_summary task_summary] }
      else
        let c := createIssue st1.tracker "Sub-task" sub_summary (some p.key)
        { st1 with tracker := c.2,
                   trace := st1.trace ++ [Call.create "Sub-task" sub_summary (some p.key)],
                   logs := st1.logs ++ [Log.createdSub (some p.key) sub_summary] }
    | some Handle.placeholder =>
      if cfg.dryRun then
        { st with logs := st.logs ++ [Log.dryCreateSub sub_summary task_summary] }
      else
        let c := createIssue st.tracker "Sub-task" sub_summary none
        { st with tracker := c.2,
                  trace := st.trace ++ [Call.create "Sub-task" sub_summary none],
                  logs := st.logs ++ [Log.createdSub none sub_summary] }

/-- Phase 2 body: TASK block, then SUB-TASK block, of one row. -/
def rowStep2 (cfg : Config) (st : St) (r : Row) : St :=
  subPart cfg (taskPart cfg st r) r

/-- Phase 1: create Epics that do not exist. -/
def phase1 (cfg : Config) (rows : List Row) (st : St) : St :=
  rows.foldl (epicStep cfg) st

/-- Phase 2: create Tasks and Sub-tasks. -/
def phase2 (cfg : Config) (rows : List Row) (st : St) : St :=
  rows.foldl (rowStep2 cfg) st

/-- `[task_map[s].key for s in task_summaries if isinstance(task_map.get(s), Issue)]`. -/
def resolvedKeys (taskMap : List (String × Handle)) (summaries : List String) : List Nat :=
  summaries.filterMap (fun s =>
    match alookup taskMap s with
    | some (Handle.real t) => some t.key
    | _ => none)

/-- One linking call: record the attempt, then the per-batch outcome. -/
def linkBatch (fail : LinkFail) (epicKey : Nat) (acc : St) (b : List Nat) : St :=
  if b = [] then acc
  else
    let acc1 := { acc with trace := acc.trace ++ [Call.addToEpic epicKey b] }
    if fail epicKey b then { acc1 with logs := acc1.logs ++ [Log.linkFailed epicKey] }
    else { acc1 with logs := acc1.logs ++ [Log.linked b.length epicKey] }

/-- One iteration of the link loop: one `(epic_summary, task_summaries)` group. -/
def linkGroup (cfg : Config) (fail : LinkFail) (st : St) (g : String × List String) : St :=
  match alookup st.epicMap g.1 with
  | some (Handle.real e) =>
    (batches cfg.batchSize (resolvedKeys st.taskMap g.2)).foldl (linkBatch fail e.key) st
  | _ => st

/-- Phase 3: link Tasks to Epics (or only announce it in dry-run). -/
def phase3 (cfg : Config) (fail : LinkFail) (st : St) : St :=
  if cfg.dryRun then { st with logs := st.logs ++ [Log.dryLinkNote] }
  else st.links.foldl (linkGroup cfg fail) st

/-- `main()`: index the destination, then the three phases. -/
def run (cfg : Config) (fail : LinkFail) (rows : List Row) (t0 : Tracker) : St :=
  let st0 : St :=
    { tracker := t0, idx := existing_issues_index t0, epicMap := [], taskMap := [],
      links := [], trace := List.replicate (indexPages t0.issues).2 Call.search, logs := [] }
  phase3 cfg fail (phase2 cfg rows (phase1 cfg rows st0))

/-- `main()` falls off the end on every completed path (link failures are
caught and only logged), so the interpreter's exit status is `0`. -/
def mainExit (cfg : Config) (fail : LinkFail) (rows : List Row) (t0 : Tracker) : St × Nat :=
  (run cfg fail rows t0, 0)

/-- Is a trace event a creation call? -/
def isCreate : Call → Bool
  | Call.create _ _ _ => true
  | _ => false

/-- Is a trace event a linking call? -/
def isLink : Call → Bool
  | Call.addToEpic _ _ => true
  | _ => false

/-- Is a trace event a search call? -/
def isSearch : Call → Bool
  | Call.search => true
  | _ => false

/-- Number of creation calls in a trace. -/
def creations (tr : List Call) : Nat := (tr.filter isCreate).length

/-- Number of search calls in a trace. -/
def searches (tr : List Call) : Nat := (tr.filter isSearch).length

/-- Number of creation calls of a given case-insensitive identity
(lower-cased kind, lower-cased summary). -/
def createsOf (tr : List Call) (kindLow sumLow : String) : Nat :=
  (tr.filter (fun c =>
    match c with
    | Call.create k s _ => pyLower k == kindLow && pyLower s == sumLow
    | _ => false)).length

/-- Number of sub-task creation calls under a given parent key with a given
lower-cased summary. -/
def subCreatesUnder (tr : List Call) (parentKey : Nat) (sumLow : String) : Nat :=
  (tr.filter (fun c =>
    match c with
    | Call.create k s p => pyLower k == "sub-task" && pyLower s == sumLow && p == some parentKey
    | _ => false)).length

/-- Total number of occurrences of a task summary across all link lists. -/
def linkCount (links : List (String × List String)) (ts : String) : Nat :=
  (links.map (fun g => g.2.count ts)).sum

/-- Number of occurrences of a given stderr line. -/
def countLog (logs : List Log) (e : Log) : Nat := logs.count e

/-- The dry-run invariant: the destination is never mutated, but the index
*is* built (and read): the tracker and index stay at their initial values,
the trace holds no creation or linking calls and exactly the index-build
searches, a "would create" line for an Epic (resp. Task) is only ever
emitted for a summary absent from the destination index (for Tasks: absent
under both the Task and the Story kind), and each such line appears at most
once per summary (repeats collapse onto the run maps). -/
def C4Inv (t0 : Tracker) (st : St) : Prop :=
  st.tracker = t0 ∧
  st.idx = existing_issues_index t0 ∧
  (∀ c ∈ st.trace, isCreate c = false ∧ isLink c = false) ∧
  searches st.trace = (indexPages t0.issues).2 ∧
  (∀ s, Log.dryCreateEpic s ∈ st.logs →
    issue_exists (existing_issues_index t0) "Epic" s = none) ∧
  (∀ s, Log.dryCreateTask s ∈ st.logs →
    issue_exists (existing_issues_index t0) "Task" s = none ∧
    issue_exists (existing_issues_index t0) "Story" s = none) ∧
  (∀ s, countLog st.logs (Log.dryCreateEpic s) ≤ 1 ∧
    (1 ≤ countLog st.logs (Log.dryCreateEpic s) → (alookup st.epicMap s).isSome)) ∧
  (∀ s, countLog st.logs (Log.dryCreateTask s) ≤ 1 ∧
    (1 ≤ countLog st.logs (Log.dryCreateTask s) → (alookup st.taskMap s).isSome))

/-- The within-run dedup invariant: at most one Epic creation per
case-insensitive summary (and once created, the index holds its key), the
same for Task creations, and at most one Sub-task creation per (parent key,
case-insensitive summary) pair (and once created, the tracker holds it). -/
def C2Inv (sE sT : String) (pk : Nat) (sS : String) (st : St) : Prop :=
  (createsOf st.trace "epic" sE ≤ 1 ∧
    (1 ≤ createsOf st.trace "epic" sE → (idxFind st.idx ("epic", sE)).isSome)) ∧
  (createsOf st.trace "task" sT ≤ 1 ∧
    (1 ≤ createsOf st.trace "task" sT → (idxFind st.idx ("task", sT)).isSome)) ∧
  (subCreatesUnder st.trace pk sS ≤ 1 ∧
    (1 ≤ subCreatesUnder st.trace pk sS →
      ∃ i ∈ st.tracker.issues, i.parent = some pk ∧ pyLower i.summary = sS))

/-- The across-run idempotency invariant for a live second run against an
unchanged destination holding every needed identity: the tracker is still the
initial one, the index is the initial index, every task-map entry is a real
issue agreeing with first-run task resolution, and the trace holds no
creation call. -/
def C1Inv (t0 : Tracker) (st : St) : Prop :=
  st.tracker = t0 ∧
  st.idx = existing_issues_index t0 ∧
  (∀ s h, alookup st.taskMap s = some h →
    ∃ p, h = Handle.real p ∧ resolveTask t0 s = some p) ∧
  (∀ c ∈ st.trace, isCreate c = false)

/-- Concrete rows used to exhibit the interleaving of task and sub-task
creation calls. -/
def rowsA : List Row := [⟨"E", "T1", "S1"⟩, ⟨"E", "T2", ""⟩]

/-- An empty destination project. -/
def emptyTracker : Tracker := ⟨[], 0⟩

/-- A concrete epic issue for the batching scenario. -/
def epicE : Issue := ⟨100, "Epic", "E", none⟩

/-- A concrete mid-run state with one epic group of three resolved tasks. -/
def c8St : St :=
  { tracker := emptyTracker, idx := [],
    epicMap := [("E", Handle.real epicE)],
    taskMap := [("T1", Handle.real ⟨1, "Task", "T1", none⟩),
                ("T2", Handle.real ⟨2, "Task", "T2", none⟩),
                ("T3", Handle.real ⟨3, "Task", "T3", none⟩)],
    links := [], trace := [], logs := [] }

/-- An empty run state over an empty destination. -/
def emptySt : St := ⟨emptyTracker, [], [], [], [], [], []⟩

/-- The destination holds an issue of kind Epic with this summary
(case-insensitively). -/
def epicPresent (t : Tracker) (s : String) : Prop :=
  ∃ i ∈ t.issues, pyLower i.kind = "epic" ∧ pyLower i.summary = pyLower s

/-- The destination holds an issue of kind Task or Story with this summary
(case-insensitively). -/
def taskPresent (t : Tracker) (s : String) : Prop :=
  ∃ i ∈ t.issues, (pyLower i.kind = "task" ∨ pyLower i.kind = "story") ∧
    pyLower i.summary = pyLower s

/-- The destination holds a sub-task of the given parent with this summary
(case-insensitively). -/
def subPresentFor (t : Tracker) (parentKey : Nat) (s : String) : Prop :=
  ∃ i ∈ t.issues, i.parent = some parentKey ∧ pyLower i.summary = pyLower s

/-- A failure oracle under which every linking batch succeeds. -/
def neverFail : LinkFail := fun _ _ => false

/-- A failure oracle under which every linking batch fails. -/
def failAll : LinkFail := fun _ _ => true

/-- A live configuration with the default batch size. -/
def liveCfg : Config := ⟨false, 50⟩

/-- A dry-run configuration with the default batch size. -/
def dryCfg : Config := ⟨true, 50⟩

/-- Is a trace event an Epic creation call? -/
def isEpicCreate : Call → Bool
  | Call.create "Epic" _ _ => true
  | _ => false

/-- Is a trace event a Task creation call? -/
def isTaskCreate : Call → Bool
  | Call.create "Task" _ _ => true
  | _ => false

/-- Is a trace event a Sub-task creation call? -/
def isSubCreate : Call → Bool
  | Call.create "Sub-task" _ _ => true
  | _ => false

/-- Is a trace event a single-issue read (`jira.issue`)? -/
def isGet : Call → Bool
  | Call.getIssue _ => true
  | _ => false

/-- The link phase only appends trace and log entries: tracker, index, maps
and link lists are untouched. -/
def SameCore (st st' : St) : Prop :=
  st'.tracker = st.tracker ∧ st'.idx = st.idx ∧ st'.epicMap = st.epicMap ∧
  st'.taskMap = st.taskMap ∧ st'.links = st.links

/-- `st'` extends `st`: the tracker's issue list, both run maps, the trace and
the log only ever grow (by appending) during a run. -/
def Extends (st st' : St) : Prop :=
  (∃ d, st'.tracker.issues = st.tracker.issues ++ d) ∧
  (∃ d, st'.epicMap = st.epicMap ++ d) ∧
  (∃ d, st'.taskMap = st.taskMap ++ d) ∧
  (∃ d, st'.trace = st.trace ++ d) ∧
  (∃ d, st'.logs = st.logs ++ d)

/-- Two run states that agree on everything except the log lines (used to
compare runs under different link-failure oracles). -/
def EqExceptLogs (st st' : St) : Prop :=
  st'.tracker = st.tracker ∧ st'.idx = st.idx ∧ st'.epicMap = st.epicMap ∧
  st'.taskMap = st.taskMap ∧ st'.links = st.links ∧ st'.trace = st.trace

/-! ### Generic fold and association-list lemmas -/

theorem foldl_invariant {α β : Type} (step : β → α → β) (P : β → Prop) :
    ∀ (l : List α) (b : β), P b → (∀ x ∈ l, ∀ s, P s → P (step s x)) → P (l.foldl step b)
  | [], _, hb, _ => hb
  | x :: xs, b, hb, hstep =>
    foldl_invariant step P xs (step b x) (hstep x (by simp) b hb)
      (fun y hy s hs => hstep y (by simp [hy]) s hs)

theorem lookupA_append_left {κ α : Type} [BEq κ] {m : List (κ × α)} {k : κ}
    (m' : List (κ × α)) (h : (lookupA m k).isSome) : lookupA (m ++ m') k = lookupA m k := by
  induction m with
  | nil => simp [lookupA] at h
  | cons e rest ih =>
    by_cases he : (e.1 == k) = true
    · simp [lookupA, he]
    · simp only [lookupA, he] at h ⊢
      simp only [List.cons_append, lookupA, he, if_false, Bool.false_eq_true]
      exact ih h

theorem lookupA_append_right {κ α : Type} [BEq κ] {m : List (κ × α)} {k : κ}
    (m' : List (κ × α)) (h : lookupA m k = none) : lookupA (m ++ m') k = lookupA m' k := by
  induction m with
  | nil => simp [lookupA]
  | cons e rest ih =>
    by_cases he : (e.1 == k) = true
    · simp [lookupA, he] at h
    · simp only [lookupA, he, if_false, Bool.false_eq_true] at h
      simp only [List.cons_append, lookupA, he, if_false, Bool.false_eq_true]
      exact ih h

theorem lookupA_isSome_append {κ α : Type} [BEq κ] {m : List (κ × α)} {k : κ}
    (m' : List (κ × α)) (h : (lookupA m k).isSome) : (lookupA (m ++ m') k).isSome := by
  rw [lookupA_append_left m' h]; exact h

theorem lookupA_singleton {κ α : Type} [BEq κ] (k' k : κ) (v : α) :
    lookupA [(k', v)] k = if k' == k then some v else none := rfl

/-! ### Lemmas about `idxSet` and `idxSetdefault` -/

theorem idxFind_idxSet_self (idx : Idx) (k : String × String) (v : Issue) :
    idxFind (idxSet idx k v) k = some v := by
  induction idx with
  | nil => simp [idxSet, lookupA]
  | cons e rest ih =>
    by_cases he : e.1 = k
    · simp [idxSet, he, lookupA]
    · have hb : (e.1 == k) = false := by simpa [beq_eq_false_iff_ne] using he
      simp only [idxSet, hb, Bool.false_eq_true, if_false]
      simp only [idxFind, lookupA, hb, Bool.false_eq_true, if_false] at ih ⊢
      exact ih

theorem idxFind_idxSet_ne (idx : Idx) (k k' : String × String) (v : Issue) (h : k' ≠ k) :
    idxFind (idxSet idx k v) k' = idxFind idx k' := by
  have hkk : (k == k') = false := by
    simp only [beq_eq_false_iff_ne]
    exact fun he => h he.symm
  induction idx with
  | nil => simp [idxSet, lookupA, hkk]
  | cons e rest ih =>
    by_cases he : e.1 = k
    · simp [idxSet, he, lookupA, hkk]
    · have hb : (e.1 == k) = false := by simpa [beq_eq_false_iff_ne] using he
      simp only [idxSet, hb, Bool.false_eq_true, if_false]
      by_cases he' : (e.1 == k') = true
      · simp [idxFind, lookupA, he']
      · simp only [idxFind, lookupA, he', Bool.false_eq_true, if_false] at ih ⊢
        exact ih

theorem idxFind_idxSet_isSome (idx : Idx) (k k' : String × String) (v : Issue)
    (h : (idxFind idx k').isSome) : (idxFind (idxSet idx k v) k').isSome := by
  by_cases hk : k' = k
  · subst hk; rw [idxFind_idxSet_self]; rfl
  · rw [idxFind_idxSet_ne idx k k' v hk]; exact h

theorem idxFind_setdefault_isSome (idx : Idx) (k k' : String × String) (v : Issue)
    (h : (idxFind idx k').isSome) : (idxFind (idxSetdefault idx k v) k').isSome := by
  unfold idxSetdefault
  split
  · exact h
  · exact lookupA_isSome_append _ h

theorem idxFind_setdefault_self_isSome (idx : Idx) (k : String × String) (v : Issue) :
    (idxFind (idxSetdefault idx k v) k).isSome := by
  unfold idxSetdefault
  split
  · assumption
  · rename_i hnot
    simp only [idxFind] at hnot ⊢
    have hnone : lookupA idx k = none := by
      cases hx : lookupA idx k
      · rfl
      · rw [hx] at hnot; simp at hnot
    rw [lookupA_append_right _ hnone, lookupA_singleton]
    simp

theorem idxFind_setdefault_sound (idx : Idx) (k k' : String × String) (v u : Issue)
    (h : idxFind (idxSetdefault idx k v) k' = some u) :
    idxFind idx k' = some u ∨ (u = v ∧ k' = k) := by
  unfold idxSetdefault at h
  split at h
  · exact Or.inl h
  · simp only [idxFind] at h ⊢
    cases hx : lookupA idx k' with
    | some w =>
      rw [lookupA_append_left _ (by rw [hx]; rfl)] at h
      exact Or.inl (hx ▸ h)
    | none =>
      rw [lookupA_append_right _ hx, lookupA_singleton] at h
      by_cases hk : (k == k') = true
      · simp only [hk, if_true] at h
        exact Or.inr ⟨(Option.some_inj.mp h).symm, (beq_iff_eq.mp hk).symm⟩
      · simp [hk] at h

/-! ### Lemmas about the index built from a list of issues -/

theorem buildIdx_fold_isSome_mono (issues : List Issue) (idx0 : Idx) (k : String × String)
    (h : (idxFind idx0 k).isSome) :
    (idxFind (issues.foldl
      (fun idx i => idxSetdefault idx (pyLower i.kind, pyLower i.summary) i) idx0) k).isSome :=
  foldl_invariant _ (fun idx => (idxFind idx k).isSome) issues idx0 h
    (fun x _ s hs => idxFind_setdefault_isSome s _ k x hs)

theorem buildIdx_fold_complete :
    ∀ (issues : List Issue) (idx0 : Idx) (i : Issue), i ∈ issues →
      (idxFind (issues.foldl
        (fun idx j => idxSetdefault idx (pyLower j.kind, pyLower j.summary) j) idx0)
        (pyLower i.kind, pyLower i.summary)).isSome := by
  intro issues
  induction issues with
  | nil => intro _ i hi; simp at hi
  | cons x rest ih =>
    intro idx0 i hi
    rcases List.mem_cons.mp hi with hx | hrest
    · subst hx
      exact buildIdx_fold_isSome_mono rest _ _ (idxFind_setdefault_self_isSome idx0 _ i)
    · exact ih _ i hrest

theorem buildIdx_fold_sound :
    ∀ (issues : List Issue) (idx0 : Idx) (k : String × String) (u : Issue),
      idxFind (issues.foldl
        (fun idx j => idxSetdefault idx (pyLower j.kind, pyLower j.summary) j) idx0) k = some u →
      idxFind idx0 k = some u ∨
        (u ∈ issues ∧ pyLower u.kind = k.1 ∧ pyLower u.summary = k.2) := by
  intro issues
  induction issues with
  | nil => intro _ k u h; exact Or.inl h
  | cons x rest ih =>
    intro idx0 k u h
    rcases ih _ k u h with h0 | hrest
    · rcases idxFind_setdefault_sound idx0 _ k x u h0 with h1 | ⟨hu, hk⟩
      · exact Or.inl h1
      · subst hu; subst hk
        exact Or.inr ⟨List.mem_cons_self u rest, rfl, rfl⟩
    · exact Or.inr ⟨List.mem_cons_of_mem x hrest.1, hrest.2⟩

theorem buildIdx_complete (issues : List Issue) (i : Issue) (h : i ∈ issues) :
    (idxFind (buildIdx issues) (pyLower i.kind, pyLower i.summary)).isSome :=
  buildIdx_fold_complete issues [] i h

theorem buildIdx_sound (issues : List Issue) (k : String × String) (u : Issue)
    (h : idxFind (buildIdx issues) k = some u) :
    u ∈ issues ∧ pyLower u.kind = k.1 ∧ pyLower u.summary = k.2 := by
  rcases buildIdx_fold_sound issues [] k u h with h0 | hu
  · simp [idxFind, lookupA] at h0
  · exact hu

/-! ### Pagination lemmas -/

theorem indexGo_spec : ∀ (fuel : Nat) (l : List Issue), l.length < fuel →
    indexGo fuel l = (l, (l.length + 99) / 100 + 1) := by
  intro fuel
  induction fuel with
  | zero => intro l h; omega
  | succ f ih =>
    intro l h
    simp only [indexGo]
    by_cases hl : l.take 100 = []
    · have hnil : l = [] := by
        rcases List.take_eq_nil_iff.mp hl with h100 | hn
        · omega
        · exact hn
      subst hnil
      simp
    · rw [if_neg hl]
      have hne : l ≠ [] := by
        intro hn; subst hn; simp at hl
      have hpos : 0 < l.length := List.length_pos.mpr hne
      have hdrop : (l.drop 100).length < f := by
        simp only [List.length_drop]
        omega
      rw [ih _ hdrop]
      simp only [Prod.mk.injEq, List.length_drop]
      exact ⟨List.take_append_drop 100 l, by omega⟩

theorem indexPages_spec (l : List Issue) :
    indexPages l = (l, (l.length + 99) / 100 + 1) :=
  indexGo_spec (l.length + 1) l (by omega)

theorem fetchGo_spec : ∀ (fuel : Nat) (l : List Issue), l.length < fuel →
    fetchGo fuel l = (l, l.length / 100 + 1) := by
  intro fuel
  induction fuel with
  | zero => intro l h; omega
  | succ f ih =>
    intro l h
    simp only [fetchGo]
    by_cases hs : (l.take 100).length < 100
    · have hlen : l.length < 100 := by
        rw [List.length_take] at hs
        omega
      rw [if_pos hs, List.take_of_length_le (by omega)]
      have : l.length / 100 = 0 := by omega
      rw [this]
    · rw [if_neg hs]
      have hlen : 100 ≤ l.length := by
        rw [List.length_take] at hs
        omega
      have hdrop : (l.drop 100).length < f := by
        simp only [List.length_drop]
        omega
      rw [ih _ hdrop]
      simp only [Prod.mk.injEq, List.length_drop]
      exact ⟨List.take_append_drop 100 l, by omega⟩

theorem fetch_all_spec (l : List Issue) :
    fetch_all l = (l, l.length / 100 + 1) :=
  fetchGo_spec (l.length + 1) l (by omega)

theorem existing_issues_index_eq (t : Tracker) :
    existing_issues_index t = buildIdx t.issues := by
  unfold existing_issues_index
  rw [indexPages_spec]

/-! ### Batching lemmas -/

theorem batchesGo_length : ∀ (fuel : Nat) (b : Nat) (l : List Nat), l.length < fuel → 0 < b →
    (batchesGo fuel b l).length = (l.length + b - 1) / b := by
  intro fuel
  induction fuel with
  | zero => intro b l h _; omega
  | succ f ih =>
    intro b l h hb
    simp only [batchesGo]
    by_cases hl : l = []
    · subst hl
      simp [Nat.div_eq_of_lt (show b - 1 < b by omega)]
    · rw [if_neg hl]
      have hpos : 0 < l.length := List.length_pos.mpr hl
      have hdrop : (l.drop b).length < f := by
        simp only [List.length_drop]
        omega
      simp only [List.length_cons, ih b _ hdrop hb, List.length_drop]
      by_cases hge : b ≤ l.length
      · have h1 : l.length - b + b - 1 = l.length - 1 := by omega
        have h2 : l.length + b - 1 = (l.length - 1) + b := by omega
        rw [h1, h2, Nat.add_div_right _ hb]
      · have h1 : l.length - b = 0 := by omega
        have hlt : l.length < b := by omega
        have lo : 1 * b ≤ l.length + b - 1 := by omega
        have hi2 : l.length + b - 1 < (1 + 1) * b := by omega
        rw [h1, Nat.div_eq_of_lt_le lo hi2]
        simp [Nat.div_eq_of_lt (show b - 1 < b by omega)]

theorem batches_length (b : Nat) (l : List Nat) (hb : 0 < b) :
    (batches b l).length = (l.length + b - 1) / b :=
  batchesGo_length (l.length + 1) b l (by omega) hb

theorem batchesGo_get? : ∀ (fuel : Nat) (b : Nat) (l : List Nat) (i : Nat),
    l.length < fuel → 0 < b → i < (batchesGo fuel b l).length →
    (batchesGo fuel b l).get? i = some ((l.drop (i * b)).take b) := by
  intro fuel
  induction fuel with
  | zero => intro b l i hf _ _; omega
  | succ f ih =>
    intro b l i hf hb hi
    by_cases hl : l = []
    · subst hl
      simp [batchesGo] at hi
    · simp only [batchesGo, if_neg hl] at hi ⊢
      cases i with
      | zero => simp
      | succ j =>
        have hpos : 0 < l.length := List.length_pos.mpr hl
        have hdrop : (l.drop b).length < f := by
          simp only [List.length_drop]
          omega
        simp only [List.get?_cons_succ]
        rw [ih b _ j hdrop hb (by simpa using hi)]
        rw [List.drop_drop]
        congr 3
        ring

theorem batches_get? (b : Nat) (l : List Nat) (i : Nat) (hb : 0 < b)
    (hi : i < (batches b l).length) :
    (batches b l).get? i = some ((l.drop (i * b)).take b) :=
  batchesGo_get? (l.length + 1) b l i (by omega) hb hi

theorem batchesGo_ne_nil : ∀ (fuel : Nat) (b : Nat) (l : List Nat) (x : List Nat),
    0 < b → x ∈ batchesGo fuel b l → x ≠ [] := by
  intro fuel
  induction fuel with
  | zero => intro b l x _ hx; simp [batchesGo] at hx
  | succ f ih =>
    intro b l x hb hx
    by_cases hl : l = []
    · subst hl; simp [batchesGo] at hx
    · simp only [batchesGo, if_neg hl, List.mem_cons] at hx
      rcases hx with hx | hx
      · subst hx
        simp only [ne_eq, List.take_eq_nil_iff]
        push_neg
        exact ⟨by omega, hl⟩
      · exact ih b _ x hb hx

theorem batches_ne_nil (b : Nat) (l : List Nat) (x : List Nat) (hb : 0 < b)
    (hx : x ∈ batches b l) : x ≠ [] :=
  batchesGo_ne_nil (l.length + 1) b l x hb hx

/-! ### Structure of the individual steps: traces only grow, with phase-specific shapes -/

theorem extends_refl (st : St) : Extends st st :=
  ⟨⟨[], by simp⟩, ⟨[], by simp⟩, ⟨[], by simp⟩, ⟨[], by simp⟩, ⟨[], by simp⟩⟩

theorem extends_trans {a b c : St} (h1 : Extends a b) (h2 : Extends b c) : Extends a c := by
  obtain ⟨⟨d1, e1⟩, ⟨d2, e2⟩, ⟨d3, e3⟩, ⟨d4, e4⟩, ⟨d5, e5⟩⟩ := h1
  obtain ⟨⟨f1, g1⟩, ⟨f2, g2⟩, ⟨f3, g3⟩, ⟨f4, g4⟩, ⟨f5, g5⟩⟩ := h2
  exact ⟨⟨d1 ++ f1, by rw [g1, e1, List.append_assoc]⟩,
         ⟨d2 ++ f2, by rw [g2, e2, List.append_assoc]⟩,
         ⟨d3 ++ f3, by rw [g3, e3, List.append_assoc]⟩,
         ⟨d4 ++ f4, by rw [g4, e4, List.append_assoc]⟩,
         ⟨d5 ++ f5, by rw [g5, e5, List.append_assoc]⟩⟩

theorem epicStep_extends (cfg : Config) (st : St) (r : Row) : Extends st (epicStep cfg st r) := by
  simp only [epicStep]
  repeat' split
  all_goals
    refine ⟨?_, ?_, ?_, ?_, ?_⟩ <;>
      first
        | exact ⟨[], (List.append_nil _).symm⟩
        | exact ⟨_, rfl⟩
        | exact ⟨_, List.append_assoc _ _ _⟩

theorem taskPart_extends (cfg : Config) (st : St) (r : Row) : Extends st (taskPart cfg st r) := by
  simp only [taskPart]
  repeat' split
  all_goals
    refine ⟨?_, ?_, ?_, ?_, ?_⟩ <;>
      first
        | exact ⟨[], (List.append_nil _).symm⟩
        | exact ⟨_, rfl⟩
        | exact ⟨_, List.append_assoc _ _ _⟩

theorem subPart_extends (cfg : Config) (st : St) (r : Row) : Extends st (subPart cfg st r) := by
  simp only [subPart]
  repeat' split
  all_goals
    refine ⟨?_, ?_, ?_, ?_, ?_⟩ <;>
      first
        | exact ⟨[], (List.append_nil _).symm⟩
        | exact ⟨_, rfl⟩
        | exact ⟨_, List.append_assoc _ _ _⟩

theorem rowStep2_extends (cfg : Config) (st : St) (r : Row) : Extends st (rowStep2 cfg st r) :=
  extends_trans (taskPart_extends cfg st r) (subPart_extends cfg (taskPart cfg st r) r)

theorem linkBatch_extends (fail : LinkFail) (k : Nat) (acc : St) (b : List Nat) :
    Extends acc (linkBatch fail k acc b) := by
  simp only [linkBatch]
  repeat' split
  all_goals
    refine ⟨?_, ?_, ?_, ?_, ?_⟩ <;>
      first
        | exact ⟨[], (List.append_nil _).symm⟩
        | exact ⟨_, rfl⟩
        | exact ⟨_, List.append_assoc _ _ _⟩

theorem linkGroup_extends (cfg : Config) (fail : LinkFail) (st : St) (g : String × List String) :
    Extends st (linkGroup cfg fail st g) := by
  simp only [linkGroup]
  split
  · exact foldl_invariant _ (Extends st) _ st (extends_refl st)
      (fun b _ s hs => extends_trans hs (linkBatch_extends fail _ s b))
  · exact extends_refl st

theorem phase1_extends (cfg : Config) (rows : List Row) (st : St) :
    Extends st (phase1 cfg rows st) :=
  foldl_invariant _ (Extends st) rows st (extends_refl st)
    (fun r _ s hs => extends_trans hs (epicStep_extends cfg s r))

theorem phase2_extends (cfg : Config) (rows : List Row) (st : St) :
    Extends st (phase2 cfg rows st) :=
  foldl_invariant _ (Extends st) rows st (extends_refl st)
    (fun r _ s hs => extends_trans hs (rowStep2_extends cfg s r))

theorem phase3_extends (cfg : Config) (fail : LinkFail) (st : St) :
    Extends st (phase3 cfg fail st) := by
  unfold phase3
  split
  · exact ⟨⟨[], by simp⟩, ⟨[], by simp⟩, ⟨[], by simp⟩, ⟨[], by simp⟩, ⟨_, rfl⟩⟩
  · exact foldl_invariant _ (Extends st) _ st (extends_refl st)
      (fun g _ s hs => extends_trans hs (linkGroup_extends cfg fail s g))

theorem linkBatch_sameCore (fail : LinkFail) (k : Nat) (acc : St) (b : List Nat) :
    SameCore acc (linkBatch fail k acc b) := by
  simp only [linkBatch]
  repeat' split
  all_goals exact ⟨rfl, rfl, rfl, rfl, rfl⟩

theorem sameCore_refl (st : St) : SameCore st st := ⟨rfl, rfl, rfl, rfl, rfl⟩

theorem sameCore_trans {a b c : St} (h1 : SameCore a b) (h2 : SameCore b c) : SameCore a c :=
  ⟨h2.1.trans h1.1, h2.2.1.trans h1.2.1, h2.2.2.1.trans h1.2.2.1,
   h2.2.2.2.1.trans h1.2.2.2.1, h2.2.2.2.2.trans h1.2.2.2.2⟩

theorem linkGroup_sameCore (cfg : Config) (fail : LinkFail) (st : St) (g : String × List String) :
    SameCore st (linkGroup cfg fail st g) := by
  simp only [linkGroup]
  split
  · exact foldl_invariant _ (SameCore st) _ st (sameCore_refl st)
      (fun b _ s hs => sameCore_trans hs (linkBatch_sameCore fail _ s b))
  · exact sameCore_refl st

theorem epicStep_trace (cfg : Config) (st : St) (r : Row) :
    ∃ d, (epicStep cfg st r).trace = st.trace ++ d ∧ ∀ c ∈ d, isEpicCreate c = true := by
  simp only [epicStep]
  split
  · exact ⟨[], by simp, by simp⟩
  split
  · exact ⟨[], by simp, by simp⟩
  split
  · exact ⟨[], by simp, by simp⟩
  split
  · exact ⟨[], by simp, by simp⟩
  refine ⟨[Call.create "Epic" (pyStrip r.epic_summary) none], rfl, ?_⟩
  intro c hc
  simp only [List.mem_singleton] at hc
  subst hc
  rfl

theorem taskPart_trace (cfg : Config) (st : St) (r : Row) :
    ∃ d, (taskPart cfg st r).trace = st.trace ++ d ∧ ∀ c ∈ d, isTaskCreate c = true := by
  simp only [taskPart]
  split
  · exact ⟨[], by simp, by simp⟩
  split
  · exact ⟨[], by simp, by simp⟩
  split
  · exact ⟨[], by simp, by simp⟩
  split
  · exact ⟨[], by simp, by simp⟩
  refine ⟨[Call.create "Task" (pyStrip r.task_summary) none], rfl, ?_⟩
  intro c hc
  simp only [List.mem_singleton] at hc
  subst hc
  rfl

theorem subPart_trace (cfg : Config) (st : St) (r : Row) :
    ∃ d, (subPart cfg st r).trace = st.trace ++ d ∧
      ∀ c ∈ d, (isSubCreate c || isGet c) = true := by
  simp only [subPart]
  split
  · exact ⟨[], by simp, by simp⟩
  split
  · exact ⟨[], by simp, by simp⟩
  · rename_i p heq
    split
    · refine ⟨[Call.getIssue p.key], rfl, ?_⟩
      intro c hc
      simp only [List.mem_singleton] at hc
      subst hc
      rfl
    split
    · refine ⟨[Call.getIssue p.key], rfl, ?_⟩
      intro c hc
      simp only [List.mem_singleton] at hc
      subst hc
      rfl
    · refine ⟨[Call.getIssue p.key,
        Call.create "Sub-task" (pyStrip r.subtask_summary) (some p.key)],
        by simp, ?_⟩
      intro c hc
      rcases List.mem_cons.mp hc with hc1 | hc1
      · subst hc1; rfl
      · simp only [List.mem_singleton] at hc1
        subst hc1
        rfl
  · split
    · exact ⟨[], by simp, by simp⟩
    · refine ⟨[Call.create "Sub-task" (pyStrip r.subtask_summary) none], rfl, ?_⟩
      intro c hc
      simp only [List.mem_singleton] at hc
      subst hc
      rfl

theorem rowStep2_trace (cfg : Config) (st : St) (r : Row) :
    ∃ d, (rowStep2 cfg st r).trace = st.trace ++ d ∧
      ∀ c ∈ d, (isTaskCreate c || isSubCreate c || isGet c) = true := by
  obtain ⟨d1, h1, ha1⟩ := taskPart_trace cfg st r
  obtain ⟨d2, h2, ha2⟩ := subPart_trace cfg (taskPart cfg st r) r
  refine ⟨d1 ++ d2, ?_, ?_⟩
  · rw [rowStep2, h2, h1, List.append_assoc]
  · intro c hc
    rcases List.mem_append.mp hc with hc1 | hc2
    · simp [ha1 c hc1]
    · have := ha2 c hc2
      rcases Bool.or_eq_true_iff.mp this with h | h <;> simp [h]

theorem phase1_trace (cfg : Config) (rows : List Row) (st : St) :
    ∃ d, (phase1 cfg rows st).trace = st.trace ++ d ∧ ∀ c ∈ d, isEpicCreate c = true := by
  refine foldl_invariant _
    (fun s => ∃ d, s.trace = st.trace ++ d ∧ ∀ c ∈ d, isEpicCreate c = true)
    rows st ⟨[], by simp⟩ ?_
  rintro r _ s ⟨d, hd, hall⟩
  obtain ⟨d2, hd2, hall2⟩ := epicStep_trace cfg s r
  refine ⟨d ++ d2, ?_, ?_⟩
  · rw [hd2, hd, List.append_assoc]
  · intro c hc
    rcases List.mem_append.mp hc with h | h
    · exact hall c h
    · exact hall2 c h

theorem phase2_trace (cfg : Config) (rows : List Row) (st : St) :
    ∃ d, (phase2 cfg rows st).trace = st.trace ++ d ∧
      ∀ c ∈ d, (isTaskCreate c || isSubCreate c || isGet c) = true := by
  refine foldl_invariant _
    (fun s => ∃ d, s.trace = st.trace ++ d ∧
      ∀ c ∈ d, (isTaskCreate c || isSubCreate c || isGet c) = true)
    rows st ⟨[], by simp⟩ ?_
  rintro r _ s ⟨d, hd, hall⟩
  obtain ⟨d2, hd2, hall2⟩ := rowStep2_trace cfg s r
  refine ⟨d ++ d2, ?_, ?_⟩
  · rw [hd2, hd, List.append_assoc]
  · intro c hc
    rcases List.mem_append.mp hc with h | h
    · exact hall c h
    · exact hall2 c h

theorem linkBatch_trace (fail : LinkFail) (k : Nat) (acc : St) (b : List Nat) :
    ∃ d, (linkBatch fail k acc b).trace = acc.trace ++ d ∧ ∀ c ∈ d, isLink c = true := by
  simp only [linkBatch]
  split
  · exact ⟨[], by simp, by simp⟩
  split
  all_goals
    refine ⟨[Call.addToEpic k b], rfl, ?_⟩
    intro c hc
    simp only [List.mem_singleton] at hc
    subst hc
    rfl

theorem linkGroup_trace (cfg : Config) (fail : LinkFail) (st : St) (g : String × List String) :
    ∃ d, (linkGroup cfg fail st g).trace = st.trace ++ d ∧ ∀ c ∈ d, isLink c = true := by
  simp only [linkGroup]
  split
  · refine foldl_invariant _
      (fun s => ∃ d, s.trace = st.trace ++ d ∧ ∀ c ∈ d, isLink c = true)
      _ st ⟨[], by simp⟩ ?_
    rintro b _ s ⟨d, hd, hall⟩
    obtain ⟨d2, hd2, hall2⟩ := linkBatch_trace fail _ s b
    refine ⟨d ++ d2, ?_, ?_⟩
    · rw [hd2, hd, List.append_assoc]
    · intro c hc
      rcases List.mem_append.mp hc with h | h
      · exact hall c h
      · exact hall2 c h
  · exact ⟨[], by simp⟩

theorem phase3_trace (cfg : Config) (fail : LinkFail) (st : St) :
    ∃ d, (phase3 cfg fail st).trace = st.trace ++ d ∧ ∀ c ∈ d, isLink c = true := by
  unfold phase3
  split
  · exact ⟨[], by simp⟩
  · refine foldl_invariant _
      (fun s => ∃ d, s.trace = st.trace ++ d ∧ ∀ c ∈ d, isLink c = true)
      _ st ⟨[], by simp⟩ ?_
    rintro g _ s ⟨d, hd, hall⟩
    obtain ⟨d2, hd2, hall2⟩ := linkGroup_trace cfg fail s g
    refine ⟨d ++ d2, ?_, ?_⟩
    · rw [hd2, hd, List.append_assoc]
    · intro c hc
      rcases List.mem_append.mp hc with h | h
      · exact hall c h
      · exact hall2 c h

/-! ### Small facts used across the claims -/

theorem run_eq (cfg : Config) (fail : LinkFail) (rows : List Row) (t0 : Tracker) :
    run cfg fail rows t0 =
      phase3 cfg fail (phase2 cfg rows (phase1 cfg rows
        { tracker := t0, idx := existing_issues_index t0, epicMap := [], taskMap := [],
          links := [], trace := List.replicate (indexPages t0.issues).2 Call.search,
          logs := [] })) := rfl

theorem creations_append (tr1 tr2 : List Call) :
    creations (tr1 ++ tr2) = creations tr1 + creations tr2 := by
  simp [creations, List.filter_append]

theorem createsOf_append (tr1 tr2 : List Call) (k s : String) :
    createsOf (tr1 ++ tr2) k s = createsOf tr1 k s + createsOf tr2 k s := by
  simp [createsOf, List.filter_append]

theorem subCreatesUnder_append (tr1 tr2 : List Call) (pk : Nat) (s : String) :
    subCreatesUnder (tr1 ++ tr2) pk s = subCreatesUnder tr1 pk s + subCreatesUnder tr2 pk s := by
  simp [subCreatesUnder, List.filter_append]

theorem searches_append (tr1 tr2 : List Call) :
    searches (tr1 ++ tr2) = searches tr1 + searches tr2 := by
  simp [searches, List.filter_append]

theorem searches_replicate (n : Nat) : searches (List.replicate n Call.search) = n := by
  induction n with
  | zero => rfl
  | succ m ih =>
    simp only [List.replicate_succ, searches, List.filter_cons] at ih ⊢
    simp only [show isSearch Call.search = true from rfl, if_true, List.length_cons]
    omega

theorem creations_eq_zero : ∀ (tr : List Call), (∀ c ∈ tr, isCreate c = false) →
    creations tr = 0
  | [], _ => rfl
  | c :: rest, h => by
    have hc : isCreate c = false := h c (by simp)
    have ih := creations_eq_zero rest (fun c' hc' => h c' (by simp [hc']))
    simp only [creations, List.filter_cons, hc, Bool.false_eq_true, if_false] at ih ⊢
    exact ih

theorem pyLower_epic_lit : pyLower "Epic" = "epic" := by decide

theorem pyLower_task_lit : pyLower "Task" = "task" := by decide

theorem pyLower_story_lit : pyLower "Story" = "story" := by decide

theorem pyLower_sub_lit : pyLower "Sub-task" = "sub-task" := by decide

/-! ### C9: pagination -/

/-- C9 (amended): both pagination loops collect the full result set, but only
the exporter's `fetch_all` stops as soon as a page shorter than the page size
(100) is returned (`len / 100 + 1` search calls); the import script's index
builder keeps requesting until an *empty* page is returned, which costs one
extra call after a final short non-empty page (`ceil(len / 100) + 1` calls). -/
theorem c9_pagination_amended (l : List Issue) :
    (fetch_all l).1 = l ∧ (fetch_all l).2 = l.length / 100 + 1 ∧
    (indexPages l).1 = l ∧ (indexPages l).2 = (l.length + 99) / 100 + 1 := by
  rw [fetch_all_spec, indexPages_spec]
  exact ⟨rfl, rfl, rfl, rfl⟩

/-- C9 counterexample: on a destination with 50 issues the very first page is
already shorter than the page size, yet the import index builder performs 2
search calls — it does not stop at the short page (the exporter loop, which
does stop there, performs exactly 1). -/
theorem c9_counterexample :
    (indexPages (List.replicate 50 (⟨0, "Task", "x", none⟩ : Issue))).2 = 2 ∧
    (fetch_all (List.replicate 50 (⟨0, "Task", "x", none⟩ : Issue))).2 = 1 := by decide

/-! ### C5: exit status -/

/-- C5 (amended): `main()` returns `None` on every completed path — link
failures are caught and only logged — so the process exit status is 0 whether
or not any linking batch failed; the exit status does not reflect link
failures. -/
theorem c5_exit_status_amended (cfg : Config) (fail : LinkFail) (rows : List Row)
    (t0 : Tracker) : (mainExit cfg fail rows t0).2 = 0 := rfl

/-- C5 counterexample: a live run in which the only linking batch fails logs
the failure, yet exits with the same status (0) as the failure-free run. -/
theorem c5_counterexample :
    Log.linkFailed 0 ∈ (mainExit liveCfg failAll [⟨"E", "T", ""⟩] emptyTracker).1.logs ∧
    (mainExit liveCfg failAll [⟨"E", "T", ""⟩] emptyTracker).2 =
      (mainExit liveCfg neverFail [⟨"E", "T", ""⟩] emptyTracker).2 := by decide

/-! ### C8: link batching -/

theorem linkBatch_trace_ne (fail : LinkFail) (k : Nat) (acc : St) (b : List Nat)
    (hb : b ≠ []) :
    (linkBatch fail k acc b).trace = acc.trace ++ [Call.addToEpic k b] := by
  unfold linkBatch
  rw [if_neg hb]
  split <;> rfl

theorem linkFold_trace (fail : LinkFail) (k : Nat) :
    ∀ (bs : List (List Nat)), (∀ x ∈ bs, x ≠ []) → ∀ (acc : St),
      (bs.foldl (linkBatch fail k) acc).trace =
        acc.trace ++ bs.map (fun b => Call.addToEpic k b)
  | [], _, acc => by simp
  | b :: rest, h, acc => by
    have hb : b ≠ [] := h b (by simp)
    have ih := linkFold_trace fail k rest (fun x hx => h x (by simp [hx]))
      (linkBatch fail k acc b)
    simp only [List.foldl_cons, List.map_cons]
    rw [ih, linkBatch_trace_ne fail k acc b hb, List.append_assoc]
    rfl

/-- C8: for an epic group whose summary resolves to a real epic handle, the
link phase issues exactly `ceil(K / B)` linking calls, in order, the `i`-th
call carrying the `i`-th contiguous slice of the resolved task-key list
(`K` keys, batch size `B > 0`). -/
theorem c8_link_batching (cfg : Config) (fail : LinkFail) (st : St)
    (g : String × List String) (e : Issue)
    (hb : 0 < cfg.batchSize)
    (he : alookup st.epicMap g.1 = some (Handle.real e)) :
    (linkGroup cfg fail st g).trace =
      st.trace ++ (batches cfg.batchSize (resolvedKeys st.taskMap g.2)).map
        (fun b => Call.addToEpic e.key b) ∧
    (batches cfg.batchSize (resolvedKeys st.taskMap g.2)).length =
      ((resolvedKeys st.taskMap g.2).length + cfg.batchSize - 1) / cfg.batchSize ∧
    (∀ i, i < (batches cfg.batchSize (resolvedKeys st.taskMap g.2)).length →
      (batches cfg.batchSize (resolvedKeys st.taskMap g.2)).get? i =
        some (((resolvedKeys st.taskMap g.2).drop (i * cfg.batchSize)).take
          cfg.batchSize)) := by
  refine ⟨?_, batches_length _ _ hb, fun i hi => batches_get? _ _ i hb hi⟩
  simp only [linkGroup, he]
  exact linkFold_trace fail e.key _ (fun x hx => batches_ne_nil _ _ x hb hx) st

/-! ### C3: cross-phase ordering -/

/-- C3 (amended): in a live run the trace decomposes into four consecutive
segments — the index-build searches, then all Epic creation calls, then the
row pass interleaving Task creations, Sub-task creations and parent reads
(in row order), then all linking calls.  Epic creations precede all task and
sub-task creations, and every creation precedes every linking call; but task
and sub-task creations are interleaved within the second pass. -/
theorem c3_phase_ordering_amended (cfg : Config) (fail : LinkFail) (rows : List Row)
    (t0 : Tracker) (_hlive : cfg.dryRun = false) :
    ∃ a b c d,
      (run cfg fail rows t0).trace = a ++ b ++ c ++ d ∧
      (∀ x ∈ a, isSearch x = true) ∧
      (∀ x ∈ b, isEpicCreate x = true) ∧
      (∀ x ∈ c, (isTaskCreate x || isSubCreate x || isGet x) = true) ∧
      (∀ x ∈ d, isLink x = true) := by
  rw [run_eq]
  obtain ⟨b, hb1, hb2⟩ := phase1_trace cfg rows _
  obtain ⟨c, hc1, hc2⟩ := phase2_trace cfg rows _
  obtain ⟨d, hd1, hd2⟩ := phase3_trace cfg fail _
  refine ⟨List.replicate (indexPages t0.issues).2 Call.search, b, c, d, ?_, ?_, hb2, hc2, hd2⟩
  · rw [hd1, hc1, hb1]
  · intro x hx
    rw [List.eq_of_mem_replicate hx]
    rfl

/-- C3 counterexample: with rows `[(E, T1, S1), (E, T2, –)]` on an empty
destination, the live trace is `[search, create Epic E, create Task T1,
getIssue, create Sub-task S1, create Task T2, addToEpic]`: the Sub-task
creation (index 4) precedes the Task creation for T2 (index 5), so it is not
the case that all task creation calls precede all sub-task creation calls. -/
theorem c3_counterexample :
    ¬ (∀ i (hi : i < (run liveCfg neverFail rowsA emptyTracker).trace.length)
        (j : Nat) (hj : j < (run liveCfg neverFail rowsA emptyTracker).trace.length),
        isTaskCreate ((run liveCfg neverFail rowsA emptyTracker).trace.get ⟨i, hi⟩) = true →
        isSubCreate ((run liveCfg neverFail rowsA emptyTracker).trace.get ⟨j, hj⟩) = true →
        i < j) := by decide

/-! ### C7: sub-task rows whose task is not yet resolved -/

/-- C7: when the SUB-TASK block of a row runs (after the TASK block of the
same row) with a non-blank sub-task summary but no task-map entry for the
row's task summary, the row issues no tracker call for the sub-task: the only
effect is the CSV-order warning line, and processing continues with the next
row (the step is total and returns a normal state). -/
theorem c7_subtask_order_skip (cfg : Config) (st : St) (r : Row)
    (hsub : pyStrip r.subtask_summary ≠ "")
    (hnone : alookup (taskPart cfg st r).taskMap (pyStrip r.task_summary) = none) :
    rowStep2 cfg st r =
      { taskPart cfg st r with
          logs := (taskPart cfg st r).logs ++ [Log.orderError (pyStrip r.task_summary)] } := by
  show subPart cfg (taskPart cfg st r) r = _
  simp only [subPart]
  rw [if_neg hsub, hnone]

/-- C7 witness: the row `(E, –, S)` (blank task summary, non-blank sub-task)
on an empty state triggers exactly the warning path. -/
theorem c7_witness :
    pyStrip ("S" : String) ≠ "" ∧
    alookup (taskPart liveCfg emptySt ⟨"E", "", "S"⟩).taskMap (pyStrip "") = none ∧
    rowStep2 liveCfg emptySt ⟨"E", "", "S"⟩ =
      { taskPart liveCfg emptySt ⟨"E", "", "S"⟩ with
          logs := (taskPart liveCfg emptySt ⟨"E", "", "S"⟩).logs ++
            [Log.orderError (pyStrip "")] } :=
  ⟨by decide, by decide,
    c7_subtask_order_skip liveCfg emptySt ⟨"E", "", "S"⟩ (by decide) (by decide)⟩

/-! ### C6: link-failure isolation -/

theorem eqExceptLogs_refl (st : St) : EqExceptLogs st st := ⟨rfl, rfl, rfl, rfl, rfl, rfl⟩

theorem foldl_rel {α β : Type} (R : β → β → Prop) (f g : β → α → β)
    (hstep : ∀ (x : α) (a a' : β), R a a' → R (f a x) (g a' x)) :
    ∀ (l : List α) (a a' : β), R a a' → R (l.foldl f a) (l.foldl g a')
  | [], _, _, h => h
  | x :: xs, a, a', h => foldl_rel R f g hstep xs _ _ (hstep x a a' h)

theorem linkBatch_eqExceptLogs (fail fail' : LinkFail) (k : Nat) (b : List Nat)
    {a a' : St} (h : EqExceptLogs a a') :
    EqExceptLogs (linkBatch fail k a b) (linkBatch fail' k a' b) := by
  obtain ⟨h1, h2, h3, h4, h5, h6⟩ := h
  by_cases hb : b = []
  · simp only [linkBatch, if_pos hb]
    exact ⟨h1, h2, h3, h4, h5, h6⟩
  · simp only [linkBatch]
    rw [if_neg hb, if_neg hb]
    refine ⟨?_, ?_, ?_, ?_, ?_, ?_⟩ <;>
      (split <;> split <;> simp [h1, h2, h3, h4, h5, h6])

theorem linkGroup_eqExceptLogs (cfg : Config) (fail fail' : LinkFail)
    {a a' : St} (h : EqExceptLogs a a') (g : String × List String) :
    EqExceptLogs (linkGroup cfg fail a g) (linkGroup cfg fail' a' g) := by
  obtain ⟨h1, h2, h3, h4, h5, h6⟩ := h
  simp only [linkGroup, h3, h4]
  cases hm : alookup a.epicMap g.1 with
  | none => exact ⟨h1, h2, h3, h4, h5, h6⟩
  | some hd =>
    cases hd with
    | placeholder => exact ⟨h1, h2, h3, h4, h5, h6⟩
    | real e =>
      exact foldl_rel EqExceptLogs _ _
        (fun b x y hxy => linkBatch_eqExceptLogs fail fail' e.key b hxy)
        _ a a' ⟨h1, h2, h3, h4, h5, h6⟩

theorem phase3_eqExceptLogs (cfg : Config) (fail fail' : LinkFail) (st : St) :
    EqExceptLogs (phase3 cfg fail st) (phase3 cfg fail' st) := by
  unfold phase3
  split
  · exact eqExceptLogs_refl _
  · exact foldl_rel EqExceptLogs _ _
      (fun g x y hxy => linkGroup_eqExceptLogs cfg fail fail' hxy g)
      st.links st st (eqExceptLogs_refl st)

theorem isLink_false_of_epicCreate {c : Call} (h : isEpicCreate c = true) :
    isLink c = false := by
  cases c <;> simp_all [isEpicCreate, isLink]

theorem isLink_false_of_rowShape {c : Call}
    (h : (isTaskCreate c || isSubCreate c || isGet c) = true) : isLink c = false := by
  cases c <;> simp_all [isTaskCreate, isSubCreate, isGet, isLink]

theorem linkLog_extend {fail : LinkFail} {st st' : St}
    (hP : ∀ k b, Call.addToEpic k b ∈ st.trace → fail k b = true →
      Log.linkFailed k ∈ st.logs)
    (htr : ∃ d, st'.trace = st.trace ++ d ∧ ∀ c ∈ d, isLink c = false)
    (hlog : ∃ d, st'.logs = st.logs ++ d) :
    ∀ k b, Call.addToEpic k b ∈ st'.trace → fail k b = true →
      Log.linkFailed k ∈ st'.logs := by
  rintro k b hmem hf
  obtain ⟨d, hd, hall⟩ := htr
  obtain ⟨dl, hdl⟩ := hlog
  rw [hd] at hmem
  rcases List.mem_append.mp hmem with h | h
  · rw [hdl]
    exact List.mem_append.mpr (Or.inl (hP k b h hf))
  · have := hall _ h
    simp [isLink] at this

theorem linkBatch_linkLog (fail : LinkFail) (k : Nat) (acc : St) (b : List Nat)
    (hP : ∀ k' b', Call.addToEpic k' b' ∈ acc.trace → fail k' b' = true →
      Log.linkFailed k' ∈ acc.logs) :
    ∀ k' b', Call.addToEpic k' b' ∈ (linkBatch fail k acc b).trace → fail k' b' = true →
      Log.linkFailed k' ∈ (linkBatch fail k acc b).logs := by
  intro k' b' hmem hf
  simp only [linkBatch] at hmem ⊢
  by_cases hb : b = []
  · rw [if_pos hb] at hmem ⊢
    exact hP k' b' hmem hf
  · rw [if_neg hb] at hmem ⊢
    by_cases hfk : fail k b = true
    · rw [if_pos hfk] at hmem ⊢
      rcases List.mem_append.mp hmem with h | h
      · exact List.mem_append.mpr (Or.inl (hP k' b' h hf))
      · simp only [List.mem_singleton] at h
        have hk : k' = k := by
          injection h with hk hb'
        subst hk
        exact List.mem_append.mpr (Or.inr (by simp))
    · rw [if_neg hfk] at hmem ⊢
      rcases List.mem_append.mp hmem with h | h
      · exact List.mem_append.mpr (Or.inl (hP k' b' h hf))
      · simp only [List.mem_singleton] at h
        have hk : k' = k := by injection h with hk hb'
        have hb2 : b' = b := by injection h with hk hb'
        subst hk
        subst hb2
        exact absurd hf hfk

theorem linkGroup_linkLog (cfg : Config) (fail : LinkFail) (st : St)
    (g : String × List String)
    (hP : ∀ k' b', Call.addToEpic k' b' ∈ st.trace → fail k' b' = true →
      Log.linkFailed k' ∈ st.logs) :
    ∀ k' b', Call.addToEpic k' b' ∈ (linkGroup cfg fail st g).trace → fail k' b' = true →
      Log.linkFailed k' ∈ (linkGroup cfg fail st g).logs := by
  simp only [linkGroup]
  split
  · exact foldl_invariant _
      (fun s => ∀ k' b', Call.addToEpic k' b' ∈ s.trace → fail k' b' = true →
        Log.linkFailed k' ∈ s.logs)
      _ st hP (fun x _ s hs => linkBatch_linkLog fail _ s x hs)
  · exact hP

theorem run_linkLog_aux (cfg : Config) (fail : LinkFail) (rows : List Row) (st : St)
    (hP : ∀ k b, Call.addToEpic k b ∈ st.trace → fail k b = true →
      Log.linkFailed k ∈ st.logs) :
    ∀ k b,
      Call.addToEpic k b ∈ (phase3 cfg fail (phase2 cfg rows (phase1 cfg rows st))).trace →
      fail k b = true →
      Log.linkFailed k ∈ (phase3 cfg fail (phase2 cfg rows (phase1 cfg rows st))).logs := by
  have h1 := linkLog_extend hP
    (by
      obtain ⟨d, hd, hall⟩ := phase1_trace cfg rows st
      exact ⟨d, hd, fun c hc => isLink_false_of_epicCreate (hall c hc)⟩)
    (phase1_extends cfg rows st).2.2.2.2
  have h2 := linkLog_extend h1
    (by
      obtain ⟨d, hd, hall⟩ := phase2_trace cfg rows _
      exact ⟨d, hd, fun c hc => isLink_false_of_rowShape (hall c hc)⟩)
    (phase2_extends cfg rows _).2.2.2.2
  unfold phase3
  split
  · intro k b hmem hf
    exact List.mem_append.mpr (Or.inl (h2 k b hmem hf))
  · exact foldl_invariant _
      (fun s => ∀ k' b', Call.addToEpic k' b' ∈ s.trace → fail k' b' = true →
        Log.linkFailed k' ∈ s.logs)
      _ _ h2 (fun g _ s hs => linkGroup_linkLog cfg fail s g hs)

theorem run_linkLog (cfg : Config) (fail : LinkFail) (rows : List Row) (t0 : Tracker) :
    ∀ k b, Call.addToEpic k b ∈ (run cfg fail rows t0).trace → fail k b = true →
      Log.linkFailed k ∈ (run cfg fail rows t0).logs := by
  rw [run_eq]
  apply run_linkLog_aux
  intro k b hmem _
  have := List.eq_of_mem_replicate hmem
  simp at this

/-- C6: (i) a failing linking batch never suppresses any later linking call —
the whole tracker-call trace of a live run is independent of which batches
fail (every batch of every epic is attempted regardless); and (ii) every
failing batch is logged: whenever a linking call `addToEpic k b` appears in
the trace and the oracle fails it, the log contains the failure line naming
that epic's key. -/
theorem c6_link_failure_isolation (cfg : Config) (rows : List Row) (t0 : Tracker)
    (fail fail' : LinkFail) (_hlive : cfg.dryRun = false) :
    (run cfg fail rows t0).trace = (run cfg fail' rows t0).trace ∧
    (∀ k b, Call.addToEpic k b ∈ (run cfg fail rows t0).trace → fail k b = true →
      Log.linkFailed k ∈ (run cfg fail rows t0).logs) := by
  constructor
  · rw [run_eq, run_eq]
    exact (phase3_eqExceptLogs cfg fail' fail _).2.2.2.2.2
  · exact run_linkLog cfg fail rows t0

/-- C6 witness: a live one-epic run under the always-failing oracle issues the
same calls as under the never-failing oracle, and logs the failure. -/
theorem c6_witness :
    liveCfg.dryRun = false ∧
    ((run liveCfg failAll [⟨"E", "T", ""⟩] emptyTracker).trace =
        (run liveCfg neverFail [⟨"E", "T", ""⟩] emptyTracker).trace ∧
      (∀ k b,
        Call.addToEpic k b ∈ (run liveCfg failAll [⟨"E", "T", ""⟩] emptyTracker).trace →
        failAll k b = true →
        Log.linkFailed k ∈ (run liveCfg failAll [⟨"E", "T", ""⟩] emptyTracker).logs)) :=
  ⟨rfl, c6_link_failure_isolation liveCfg [⟨"E", "T", ""⟩] emptyTracker failAll neverFail rfl⟩

/-- C3 witness: the amended ordering statement at the concrete two-row input. -/
theorem c3_witness :
    liveCfg.dryRun = false ∧
    (∃ a b c d,
      (run liveCfg neverFail rowsA emptyTracker).trace = a ++ b ++ c ++ d ∧
      (∀ x ∈ a, isSearch x = true) ∧
      (∀ x ∈ b, isEpicCreate x = true) ∧
      (∀ x ∈ c, (isTaskCreate x || isSubCreate x || isGet x) = true) ∧
      (∀ x ∈ d, isLink x = true)) :=
  ⟨rfl, c3_phase_ordering_amended liveCfg neverFail rowsA emptyTracker rfl⟩

/-- C8 witness: batch size 2 over three resolved tasks yields the two slices,
and 120 keys with batch size 50 yield exactly the sizes 50, 50, 20. -/
theorem c8_witness :
    (0 < (⟨false, 2⟩ : Config).batchSize ∧
      alookup c8St.epicMap ("E", ["T1", "T2", "T3"]).1 = some (Handle.real epicE)) ∧
    ((batches 50 (List.range 120)).map List.length = [50, 50, 20]) ∧
    ((linkGroup ⟨false, 2⟩ neverFail c8St ("E", ["T1", "T2", "T3"])).trace =
      c8St.trace ++ (batches (⟨false, 2⟩ : Config).batchSize
        (resolvedKeys c8St.taskMap ("E", ["T1", "T2", "T3"]).2)).map
        (fun b => Call.addToEpic epicE.key b) ∧
    (batches (⟨false, 2⟩ : Config).batchSize
        (resolvedKeys c8St.taskMap ("E", ["T1", "T2", "T3"]).2)).length =
      ((resolvedKeys c8St.taskMap ("E", ["T1", "T2", "T3"]).2).length +
        (⟨false, 2⟩ : Config).batchSize - 1) / (⟨false, 2⟩ : Config).batchSize ∧
    (∀ i, i < (batches (⟨false, 2⟩ : Config).batchSize
        (resolvedKeys c8St.taskMap ("E", ["T1", "T2", "T3"]).2)).length →
      (batches (⟨false, 2⟩ : Config).batchSize
          (resolvedKeys c8St.taskMap ("E", ["T1", "T2", "T3"]).2)).get? i =
        some (((resolvedKeys c8St.taskMap ("E", ["T1", "T2", "T3"]).2).drop
          (i * (⟨false, 2⟩ : Config).batchSize)).take
            (⟨false, 2⟩ : Config).batchSize))) :=
  ⟨⟨by decide, by decide⟩, by decide,
    c8_link_batching ⟨false, 2⟩ neverFail c8St ("E", ["T1", "T2", "T3"]) epicE
      (by decide) (by decide)⟩

/-! ### C2: within-run dedup — helper lemmas -/

theorem orElse_eq_none_parts {α : Type} {a : Option α} {f : Unit → Option α}
    (h : a.orElse f = none) : a = none ∧ f () = none := by
  cases a with
  | some x => simp [Option.orElse] at h
  | none => exact ⟨rfl, by simpa [Option.orElse] using h⟩

theorem lookupA_append_self {α : Type} (m : List (String × α)) (k : String) (v : α)
    (h : lookupA m k = none) : lookupA (m ++ [(k, v)]) k = some v := by
  rw [lookupA_append_right _ h, lookupA_singleton]
  simp

theorem createsOf_singleton_create (k s : String) (p : Option Nat) (kl sl : String) :
    createsOf [Call.create k s p] kl sl =
      if pyLower k = kl ∧ pyLower s = sl then 1 else 0 := by
  by_cases h1 : pyLower k = kl <;> by_cases h2 : pyLower s = sl <;>
    simp [createsOf, List.filter_cons, h1, h2]

theorem createsOf_singleton_get (k : Nat) (kl sl : String) :
    createsOf [Call.getIssue k] kl sl = 0 := rfl

theorem createsOf_singleton_link (k : Nat) (b : List Nat) (kl sl : String) :
    createsOf [Call.addToEpic k b] kl sl = 0 := rfl

theorem createsOf_replicate_search (n : Nat) (kl sl : String) :
    createsOf (List.replicate n Call.search) kl sl = 0 := by
  induction n with
  | zero => rfl
  | succ m ih => simpa [List.replicate_succ, createsOf, List.filter_cons] using ih

theorem subCreatesUnder_singleton_create (k s : String) (p : Option Nat) (pk : Nat)
    (sl : String) :
    subCreatesUnder [Call.create k s p] pk sl =
      if pyLower k = "sub-task" ∧ pyLower s = sl ∧ p = some pk then 1 else 0 := by
  by_cases h1 : pyLower k = "sub-task" <;> by_cases h2 : pyLower s = sl <;>
    by_cases h3 : p = some pk <;>
      simp [subCreatesUnder, List.filter_cons, h1, h2, h3]

theorem subCreatesUnder_singleton_get (k : Nat) (pk : Nat) (sl : String) :
    subCreatesUnder [Call.getIssue k] pk sl = 0 := rfl

theorem subCreatesUnder_singleton_link (k : Nat) (b : List Nat) (pk : Nat) (sl : String) :
    subCreatesUnder [Call.addToEpic k b] pk sl = 0 := rfl

theorem subCreatesUnder_replicate_search (n : Nat) (pk : Nat) (sl : String) :
    subCreatesUnder (List.replicate n Call.search) pk sl = 0 := by
  induction n with
  | zero => rfl
  | succ m ih => simpa [List.replicate_succ, subCreatesUnder, List.filter_cons] using ih

theorem find_sub_isSome_iff (issues : List Issue) (pk : Nat) (sl : String) :
    ((issues.filter (fun i => i.parent == some pk)).find?
      (fun i => pyLower i.summary == sl)).isSome ↔
    ∃ i ∈ issues, i.parent = some pk ∧ pyLower i.summary = sl := by
  rw [List.find?_isSome]
  constructor
  · rintro ⟨i, hmem, hsum⟩
    have hm := List.mem_filter.mp hmem
    exact ⟨i, hm.1, by simpa using hm.2, by simpa using hsum⟩
  · rintro ⟨i, hmem, hpar, hsum⟩
    exact ⟨i, List.mem_filter.mpr ⟨hmem, by simpa using hpar⟩, by simpa using hsum⟩

theorem linkCount_nil (ts : String) : linkCount [] ts = 0 := rfl

theorem linkCount_cons (e : String × List String) (rest : List (String × List String))
    (ts : String) : linkCount (e :: rest) ts = e.2.count ts + linkCount rest ts := by
  simp [linkCount]

theorem count_singleton_eq (v ts : String) : [v].count ts = if ts = v then 1 else 0 := by
  by_cases h : ts = v <;> simp [List.count_cons, h] <;> omega

theorem linkCount_addLink (links : List (String × List String)) (k v ts : String) :
    linkCount (addLink links k v) ts = linkCount links ts + (if ts = v then 1 else 0) := by
  induction links with
  | nil =>
    rw [addLink, linkCount_cons, linkCount_nil]
    rw [show ((k, [v]) : String × List String).2 = [v] from rfl, count_singleton_eq]
    omega
  | cons e rest ih =>
    by_cases he : (e.1 == k) = true
    · simp only [addLink, he, if_true, linkCount_cons]
      rw [List.count_append, count_singleton_eq]
      omega
    · simp only [addLink, he, Bool.false_eq_true, if_false, linkCount_cons, ih]
      omega

theorem epicStep_taskMap_links (cfg : Config) (st : St) (r : Row) :
    (epicStep cfg st r).taskMap = st.taskMap ∧ (epicStep cfg st r).links = st.links := by
  simp only [epicStep]
  repeat' split
  all_goals exact ⟨rfl, rfl⟩

theorem subPart_taskMap_links (cfg : Config) (st : St) (r : Row) :
    (subPart cfg st r).taskMap = st.taskMap ∧ (subPart cfg st r).links = st.links := by
  simp only [subPart]
  repeat' split
  all_goals exact ⟨rfl, rfl⟩

theorem epicStep_idx_trace_of_dry (cfg : Config) (st : St) (r : Row)
    (hdry : cfg.dryRun = true) :
    (epicStep cfg st r).idx = st.idx ∧ (epicStep cfg st r).tracker = st.tracker ∧
      (epicStep cfg st r).trace = st.trace := by
  simp only [epicStep]
  repeat' split
  all_goals first
    | exact ⟨rfl, rfl, rfl⟩
    | (rename_i hlive; rw [hdry] at hlive; exact absurd rfl hlive)

theorem phase3_sameCore (cfg : Config) (fail : LinkFail) (st : St) :
    SameCore st (phase3 cfg fail st) := by
  unfold phase3
  split
  · exact ⟨rfl, rfl, rfl, rfl, rfl⟩
  · exact foldl_invariant _ (SameCore st) _ st (sameCore_refl st)
      (fun g _ s hs => sameCore_trans hs (linkGroup_sameCore cfg fail s g))

theorem lookupA_append_single_ne {α : Type} (m : List (String × α)) (k k' : String)
    (v : α) (h : k' ≠ k) : lookupA (m ++ [(k, v)]) k' = lookupA m k' := by
  cases hx : lookupA m k' with
  | some w => rw [lookupA_append_left _ (by rw [hx]; rfl), hx]
  | none =>
    rw [lookupA_append_right _ hx, lookupA_singleton]
    have hb : (k == k') = false := by
      simp only [beq_eq_false_iff_ne]
      exact fun he => h he.symm
    rw [hb]
    simp

theorem alookup_append_self {α : Type} (m : List (String × α)) (k : String) (v : α)
    (h : alookup m k = none) : alookup (m ++ [(k, v)]) k = some v :=
  lookupA_append_self m k v h

theorem alookup_append_single_ne {α : Type} (m : List (String × α)) (k k' : String)
    (v : α) (h : k' ≠ k) : alookup (m ++ [(k, v)]) k' = alookup m k' :=
  lookupA_append_single_ne m k k' v h

theorem epicStep_C2Inv (cfg : Config) (st : St) (r : Row) (sE sT : String) (pk : Nat)
    (sS : String) (h : C2Inv sE sT pk sS st) : C2Inv sE sT pk sS (epicStep cfg st r) := by
  obtain ⟨⟨hE1, hE2⟩, ⟨hT1, hT2⟩, ⟨hS1, hS2⟩⟩ := h
  simp only [epicStep]
  split
  · exact ⟨⟨hE1, hE2⟩, ⟨hT1, hT2⟩, ⟨hS1, hS2⟩⟩
  split
  · exact ⟨⟨hE1, hE2⟩, ⟨hT1, hT2⟩, ⟨hS1, hS2⟩⟩
  split
  · exact ⟨⟨hE1, hE2⟩, ⟨hT1, hT2⟩, ⟨hS1, hS2⟩⟩
  split
  · exact ⟨⟨hE1, hE2⟩, ⟨hT1, hT2⟩, ⟨hS1, hS2⟩⟩
  · rename_i hsum hmap hex hliv
    refine ⟨⟨?_, ?_⟩, ⟨?_, ?_⟩, ⟨?_, ?_⟩⟩ <;>
      dsimp only [C2Inv] <;>
        simp only [createsOf_append, subCreatesUnder_append,
          createsOf_singleton_create, subCreatesUnder_singleton_create]
    · by_cases hs : pyLower (pyStrip r.epic_summary) = sE
      · have hc0 : createsOf st.trace "epic" sE = 0 := by
          by_contra hne
          have hsome := hE2 (by omega)
          unfold issue_exists at hex
          rw [pyLower_epic_lit, hs] at hex
          rw [hex] at hsome
          simp at hsome
        rw [hc0, if_pos ⟨pyLower_epic_lit, hs⟩]
      · rw [if_neg (fun hc => hs hc.2)]
        omega
    · intro hge
      by_cases hs : pyLower (pyStrip r.epic_summary) = sE
      · rw [← hs]
        rw [idxFind_idxSet_self]
        rfl
      · rw [if_neg (fun hc => hs hc.2)] at hge
        exact idxFind_idxSet_isSome _ _ _ _ (hE2 (by omega))
    · rw [if_neg (fun hc => by
        rw [pyLower_epic_lit] at hc
        exact absurd hc.1 (by decide))]
      omega
    · intro hge
      rw [if_neg (fun hc => by
        rw [pyLower_epic_lit] at hc
        exact absurd hc.1 (by decide))] at hge
      exact idxFind_idxSet_isSome _ _ _ _ (hT2 (by omega))
    · rw [if_neg (fun hc => by
        rw [pyLower_epic_lit] at hc
        exact absurd hc.1 (by decide))]
      omega
    · intro hge
      rw [if_neg (fun hc => by
        rw [pyLower_epic_lit] at hc
        exact absurd hc.1 (by decide))] at hge
      obtain ⟨i, hmem, hi⟩ := hS2 (by omega)
      exact ⟨i, List.mem_append_left _ hmem, hi⟩

theorem taskPart_C2Inv (cfg : Config) (st : St) (r : Row) (sE sT : String) (pk : Nat)
    (sS : String) (h : C2Inv sE sT pk sS st) : C2Inv sE sT pk sS (taskPart cfg st r) := by
  obtain ⟨⟨hE1, hE2⟩, ⟨hT1, hT2⟩, ⟨hS1, hS2⟩⟩ := h
  simp only [taskPart]
  split
  · exact ⟨⟨hE1, hE2⟩, ⟨hT1, hT2⟩, ⟨hS1, hS2⟩⟩
  split
  · exact ⟨⟨hE1, hE2⟩, ⟨hT1, hT2⟩, ⟨hS1, hS2⟩⟩
  split
  · exact ⟨⟨hE1, hE2⟩, ⟨hT1, hT2⟩, ⟨hS1, hS2⟩⟩
  split
  · exact ⟨⟨hE1, hE2⟩, ⟨hT1, hT2⟩, ⟨hS1, hS2⟩⟩
  · rename_i hsum hmap hex hliv
    have hkind : pyLower (createIssue st.tracker "Task" (pyStrip r.task_summary) none).1.kind
        = "task" := pyLower_task_lit
    refine ⟨⟨?_, ?_⟩, ⟨?_, ?_⟩, ⟨?_, ?_⟩⟩ <;>
      simp only [createsOf_append, subCreatesUnder_append,
        createsOf_singleton_create, subCreatesUnder_singleton_create]
    · rw [if_neg (fun hc => by
        rw [pyLower_task_lit] at hc
        exact absurd hc.1 (by decide))]
      omega
    · intro hge
      rw [if_neg (fun hc => by
        rw [pyLower_task_lit] at hc
        exact absurd hc.1 (by decide))] at hge
      exact idxFind_idxSet_isSome _ _ _ _ (hE2 (by omega))
    · by_cases hs : pyLower (pyStrip r.task_summary) = sT
      · have hc0 : createsOf st.trace "task" sT = 0 := by
          by_contra hne
          have hsome := hT2 (by omega)
          have hparts := orElse_eq_none_parts hex
          have htask := hparts.1
          unfold issue_exists at htask
          rw [pyLower_task_lit, hs] at htask
          rw [htask] at hsome
          simp at hsome
        rw [hc0, if_pos ⟨pyLower_task_lit, hs⟩]
      · rw [if_neg (fun hc => hs hc.2)]
        omega
    · intro hge
      by_cases hs : pyLower (pyStrip r.task_summary) = sT
      · rw [hkind, ← hs, idxFind_idxSet_self]
        rfl
      · rw [if_neg (fun hc => hs hc.2)] at hge
        exact idxFind_idxSet_isSome _ _ _ _ (hT2 (by omega))
    · rw [if_neg (fun hc => by
        rw [pyLower_task_lit] at hc
        exact absurd hc.1 (by decide))]
      omega
    · intro hge
      rw [if_neg (fun hc => by
        rw [pyLower_task_lit] at hc
        exact absurd hc.1 (by decide))] at hge
      obtain ⟨i, hmem, hi⟩ := hS2 (by omega)
      exact ⟨i, List.mem_append_left _ hmem, hi⟩

theorem subPart_C2Inv (cfg : Config) (st : St) (r : Row) (sE sT : String) (pk : Nat)
    (sS : String) (h : C2Inv sE sT pk sS st) : C2Inv sE sT pk sS (subPart cfg st r) := by
  obtain ⟨⟨hE1, hE2⟩, ⟨hT1, hT2⟩, ⟨hS1, hS2⟩⟩ := h
  simp only [subPart]
  split
  · exact ⟨⟨hE1, hE2⟩, ⟨hT1, hT2⟩, ⟨hS1, hS2⟩⟩
  split
  · exact ⟨⟨hE1, hE2⟩, ⟨hT1, hT2⟩, ⟨hS1, hS2⟩⟩
  · rename_i p heq
    split
    · exact ⟨⟨by rw [createsOf_append, createsOf_singleton_get]; omega, by
          rw [createsOf_append, createsOf_singleton_get]
          intro hge
          exact hE2 (by omega)⟩,
        ⟨by rw [createsOf_append, createsOf_singleton_get]; omega, by
          rw [createsOf_append, createsOf_singleton_get]
          intro hge
          exact hT2 (by omega)⟩,
        ⟨by rw [subCreatesUnder_append, subCreatesUnder_singleton_get]; omega, by
          rw [subCreatesUnder_append, subCreatesUnder_singleton_get]
          intro hge
          exact hS2 (by omega)⟩⟩
    split
    · exact ⟨⟨by rw [createsOf_append, createsOf_singleton_get]; omega, by
          rw [createsOf_append, createsOf_singleton_get]
          intro hge
          exact hE2 (by omega)⟩,
        ⟨by rw [createsOf_append, createsOf_singleton_get]; omega, by
          rw [createsOf_append, createsOf_singleton_get]
          intro hge
          exact hT2 (by omega)⟩,
        ⟨by rw [subCreatesUnder_append, subCreatesUnder_singleton_get]; omega, by
          rw [subCreatesUnder_append, subCreatesUnder_singleton_get]
          intro hge
          exact hS2 (by omega)⟩⟩
    · rename_i hnotfound hliv
      refine ⟨⟨?_, ?_⟩, ⟨?_, ?_⟩, ⟨?_, ?_⟩⟩ <;>
        simp only [createsOf_append, subCreatesUnder_append,
          createsOf_singleton_get, subCreatesUnder_singleton_get,
          createsOf_singleton_create, subCreatesUnder_singleton_create]
      · rw [if_neg (fun hc => by
          rw [pyLower_sub_lit] at hc
          exact absurd hc.1 (by decide))]
        omega
      · intro hge
        rw [if_neg (fun hc => by
          rw [pyLower_sub_lit] at hc
          exact absurd hc.1 (by decide))] at hge
        exact hE2 (by omega)
      · rw [if_neg (fun hc => by
          rw [pyLower_sub_lit] at hc
          exact absurd hc.1 (by decide))]
        omega
      · intro hge
        rw [if_neg (fun hc => by
          rw [pyLower_sub_lit] at hc
          exact absurd hc.1 (by decide))] at hge
        exact hT2 (by omega)
      · by_cases hs : pyLower (pyStrip r.subtask_summary) = sS ∧ p.key = pk
        · have hc0 : subCreatesUnder st.trace pk sS = 0 := by
            by_contra hne
            obtain ⟨i, hmem, hpar, hlow⟩ := hS2 (by omega)
            have : ((st.tracker.issues.filter (fun i => i.parent == some p.key)).find?
                (fun i => pyLower i.summary == pyLower (pyStrip r.subtask_summary))).isSome := by
              rw [find_sub_isSome_iff]
              exact ⟨i, hmem, by rw [hs.2]; exact hpar, by rw [hs.1]; exact hlow⟩
            exact hnotfound this
          rw [hc0, if_pos ⟨pyLower_sub_lit, hs.1, by rw [hs.2]⟩]
        · rw [if_neg (fun hc => hs ⟨hc.2.1, Option.some_inj.mp hc.2.2⟩)]
          omega
      · intro hge
        by_cases hs : pyLower (pyStrip r.subtask_summary) = sS ∧ p.key = pk
        · refine ⟨⟨st.tracker.nextKey, "Sub-task", pyStrip r.subtask_summary, some p.key⟩,
            List.mem_append_right _ (by simp), by rw [hs.2], hs.1⟩
        · rw [if_neg (fun hc => hs ⟨hc.2.1, Option.some_inj.mp hc.2.2⟩)] at hge
          obtain ⟨i, hmem, hi⟩ := hS2 (by omega)
          exact ⟨i, List.mem_append_left _ hmem, hi⟩
  · split
    · exact ⟨⟨hE1, hE2⟩, ⟨hT1, hT2⟩, ⟨hS1, hS2⟩⟩
    · refine ⟨⟨?_, ?_⟩, ⟨?_, ?_⟩, ⟨?_, ?_⟩⟩ <;>
        simp only [createsOf_append, subCreatesUnder_append,
          createsOf_singleton_create, subCreatesUnder_singleton_create]
      · rw [if_neg (fun hc => by
          rw [pyLower_sub_lit] at hc
          exact absurd hc.1 (by decide))]
        omega
      · intro hge
        rw [if_neg (fun hc => by
          rw [pyLower_sub_lit] at hc
          exact absurd hc.1 (by decide))] at hge
        exact hE2 (by omega)
      · rw [if_neg (fun hc => by
          rw [pyLower_sub_lit] at hc
          exact absurd hc.1 (by decide))]
        omega
      · intro hge
        rw [if_neg (fun hc => by
          rw [pyLower_sub_lit] at hc
          exact absurd hc.1 (by decide))] at hge
        exact hT2 (by omega)
      · rw [if_neg (fun hc => by
          have := hc.2.2
          simp at this)]
        omega
      · intro hge
        rw [if_neg (fun hc => by
          have := hc.2.2
          simp at this)] at hge
        obtain ⟨i, hmem, hi⟩ := hS2 (by omega)
        exact ⟨i, List.mem_append_left _ hmem, hi⟩

theorem linkBatch_C2Inv (fail : LinkFail) (k : Nat) (acc : St) (b : List Nat)
    (sE sT : String) (pk : Nat) (sS : String) (h : C2Inv sE sT pk sS acc) :
    C2Inv sE sT pk sS (linkBatch fail k acc b) := by
  obtain ⟨⟨hE1, hE2⟩, ⟨hT1, hT2⟩, ⟨hS1, hS2⟩⟩ := h
  simp only [linkBatch]
  split
  · exact ⟨⟨hE1, hE2⟩, ⟨hT1, hT2⟩, ⟨hS1, hS2⟩⟩
  split <;>
    exact ⟨⟨by rw [createsOf_append, createsOf_singleton_link]; omega, by
        rw [createsOf_append, createsOf_singleton_link]
        intro hge
        exact hE2 (by omega)⟩,
      ⟨by rw [createsOf_append, createsOf_singleton_link]; omega, by
        rw [createsOf_append, createsOf_singleton_link]
        intro hge
        exact hT2 (by omega)⟩,
      ⟨by rw [subCreatesUnder_append, subCreatesUnder_singleton_link]; omega, by
        rw [subCreatesUnder_append, subCreatesUnder_singleton_link]
        intro hge
        exact hS2 (by omega)⟩⟩

theorem linkGroup_C2Inv (cfg : Config) (fail : LinkFail) (st : St)
    (g : String × List String) (sE sT : String) (pk : Nat) (sS : String)
    (h : C2Inv sE sT pk sS st) : C2Inv sE sT pk sS (linkGroup cfg fail st g) := by
  simp only [linkGroup]
  split
  · exact foldl_invariant _ (C2Inv sE sT pk sS) _ st h
      (fun x _ s hs => linkBatch_C2Inv fail _ s x sE sT pk sS hs)
  · exact h

theorem run_C2Inv (cfg : Config) (fail : LinkFail) (rows : List Row) (t0 : Tracker)
    (sE sT : String) (pk : Nat) (sS : String) :
    C2Inv sE sT pk sS (run cfg fail rows t0) := by
  rw [run_eq]
  have h0 : C2Inv sE sT pk sS
      { tracker := t0, idx := existing_issues_index t0, epicMap := [], taskMap := [],
        links := [], trace := List.replicate (indexPages t0.issues).2 Call.search,
        logs := [] } := by
    refine ⟨⟨?_, ?_⟩, ⟨?_, ?_⟩, ⟨?_, ?_⟩⟩ <;>
      simp only [createsOf_replicate_search, subCreatesUnder_replicate_search] <;>
        omega
  have h1 := foldl_invariant (epicStep cfg) (C2Inv sE sT pk sS) rows _ h0
    (fun r _ s hs => epicStep_C2Inv cfg s r sE sT pk sS hs)
  have h2 := foldl_invariant (rowStep2 cfg) (C2Inv sE sT pk sS) rows _ h1
    (fun r _ s hs => subPart_C2Inv cfg _ r sE sT pk sS
      (taskPart_C2Inv cfg s r sE sT pk sS hs))
  unfold phase3
  split
  · exact h2
  · exact foldl_invariant _ (C2Inv sE sT pk sS) _ _ h2
      (fun g _ s hs => linkGroup_C2Inv cfg fail s g sE sT pk sS hs)

theorem taskPart_taskMap_isSome (cfg : Config) (st : St) (r : Row)
    (h : pyStrip r.task_summary ≠ "") :
    (alookup (taskPart cfg st r).taskMap (pyStrip r.task_summary)).isSome := by
  simp only [taskPart]
  rw [if_neg h]
  split
  · assumption
  · rename_i hnotin
    have hnone : alookup st.taskMap (pyStrip r.task_summary) = none := by
      cases hx : alookup st.taskMap (pyStrip r.task_summary)
      · rfl
      · rw [hx] at hnotin; simp at hnotin
    split
    · dsimp only
      rw [alookup_append_self _ _ _ hnone]
      rfl
    split
    · dsimp only
      rw [alookup_append_self _ _ _ hnone]
      rfl
    · dsimp only
      rw [alookup_append_self _ _ _ hnone]
      rfl

theorem taskPart_linkCount (cfg : Config) (st : St) (r : Row)
    (h : ∀ ts, linkCount st.links ts = if (alookup st.taskMap ts).isSome then 1 else 0) :
    ∀ ts, linkCount (taskPart cfg st r).links ts =
      if (alookup (taskPart cfg st r).taskMap ts).isSome then 1 else 0 := by
  intro ts
  simp only [taskPart]
  split
  · exact h ts
  split
  · exact h ts
  · rename_i hne hnotin
    have hnone : alookup st.taskMap (pyStrip r.task_summary) = none := by
      cases hx : alookup st.taskMap (pyStrip r.task_summary)
      · rfl
      · rw [hx] at hnotin; simp at hnotin
    by_cases hts : ts = pyStrip r.task_summary
    · subst hts
      split
      · dsimp only
        rw [linkCount_addLink, h (pyStrip r.task_summary), hnone,
          alookup_append_self _ _ _ hnone]
        simp
      split
      · dsimp only
        rw [linkCount_addLink, h (pyStrip r.task_summary), hnone,
          alookup_append_self _ _ _ hnone]
        simp
      · dsimp only
        rw [linkCount_addLink, h (pyStrip r.task_summary), hnone,
          alookup_append_self _ _ _ hnone]
        simp
    · split
      · dsimp only
        rw [linkCount_addLink, h ts, alookup_append_single_ne _ _ _ _ hts, if_neg hts]
        omega
      split
      · dsimp only
        rw [linkCount_addLink, h ts, alookup_append_single_ne _ _ _ _ hts, if_neg hts]
        omega
      · dsimp only
        rw [linkCount_addLink, h ts, alookup_append_single_ne _ _ _ _ hts, if_neg hts]
        omega

theorem run_linkCount (cfg : Config) (fail : LinkFail) (rows : List Row) (t0 : Tracker) :
    ∀ ts, linkCount (run cfg fail rows t0).links ts =
      if (alookup (run cfg fail rows t0).taskMap ts).isSome then 1 else 0 := by
  rw [run_eq]
  have h0 : ∀ ts,
      linkCount (St.mk t0 (existing_issues_index t0) [] [] []
        (List.replicate (indexPages t0.issues).2 Call.search) []).links ts =
      if (alookup (St.mk t0 (existing_issues_index t0) [] [] []
        (List.replicate (indexPages t0.issues).2 Call.search) []).taskMap ts).isSome
      then 1 else 0 := by
    intro ts
    simp [linkCount, lookupA]
  have h1 := foldl_invariant (epicStep cfg)
    (fun s => ∀ ts, linkCount s.links ts = if (alookup s.taskMap ts).isSome then 1 else 0)
    rows _ h0
    (fun r _ s hs => by
      intro ts
      rw [(epicStep_taskMap_links cfg s r).1, (epicStep_taskMap_links cfg s r).2]
      exact hs ts)
  have h2 := foldl_invariant (rowStep2 cfg)
    (fun s => ∀ ts, linkCount s.links ts = if (alookup s.taskMap ts).isSome then 1 else 0)
    rows _ h1
    (fun r _ s hs => by
      intro ts
      rw [show rowStep2 cfg s r = subPart cfg (taskPart cfg s r) r from rfl,
        (subPart_taskMap_links cfg _ r).1, (subPart_taskMap_links cfg _ r).2]
      exact taskPart_linkCount cfg s r hs ts)
  intro ts
  have hsc := phase3_sameCore cfg fail (phase2 cfg rows (phase1 cfg rows
    { tracker := t0, idx := existing_issues_index t0, epicMap := [], taskMap := [],
      links := [], trace := List.replicate (indexPages t0.issues).2 Call.search,
      logs := [] }))
  rw [hsc.2.2.2.2, hsc.2.2.2.1]
  exact h2 ts

theorem phase2_taskMap_mem (cfg : Config) :
    ∀ (rows : List Row) (st : St) (r : Row), r ∈ rows → pyStrip r.task_summary ≠ "" →
      (alookup (phase2 cfg rows st).taskMap (pyStrip r.task_summary)).isSome := by
  intro rows
  induction rows with
  | nil => intro st r hr; simp at hr
  | cons x rest ih =>
    intro st r hr hts
    rcases List.mem_cons.mp hr with hhd | htl
    · subst hhd
      have h1 : (alookup (rowStep2 cfg st r).taskMap (pyStrip r.task_summary)).isSome := by
        rw [show rowStep2 cfg st r = subPart cfg (taskPart cfg st r) r from rfl,
          (subPart_taskMap_links cfg _ r).1]
        exact taskPart_taskMap_isSome cfg st r hts
      show (alookup (phase2 cfg rest (rowStep2 cfg st r)).taskMap _).isSome
      obtain ⟨d, hd⟩ := (phase2_extends cfg rest (rowStep2 cfg st r)).2.2.1
      rw [hd]
      exact lookupA_isSome_append _ h1
    · exact ih (rowStep2 cfg st x) r htl hts

/-- C2 (amended): within one run, each epic identity (case-insensitive
summary) triggers at most one creation call, each task identity triggers at
most one creation call, and each sub-task identity *scoped to its parent
task* — (parent key, case-insensitive summary) — triggers at most one
creation call (the same sub-task summary under two different parents is
created once per parent, since sub-task dedup is per-parent in the source).
A task summary appearing on any number of rows gets exactly one entry in the
link lists (under the epic of its first row). -/
theorem c2_within_run_dedup (cfg : Config) (fail : LinkFail) (rows : List Row)
    (t0 : Tracker) (_hlive : cfg.dryRun = false) :
    (∀ s, createsOf (run cfg fail rows t0).trace "epic" s ≤ 1) ∧
    (∀ s, createsOf (run cfg fail rows t0).trace "task" s ≤ 1) ∧
    (∀ pk s, subCreatesUnder (run cfg fail rows t0).trace pk s ≤ 1) ∧
    (∀ ts, (∃ r ∈ rows, pyStrip r.task_summary = ts) → ts ≠ "" →
      linkCount (run cfg fail rows t0).links ts = 1) := by
  refine ⟨fun s => (run_C2Inv cfg fail rows t0 s "" 0 "").1.1,
          fun s => (run_C2Inv cfg fail rows t0 "" s 0 "").2.1.1,
          fun pk s => (run_C2Inv cfg fail rows t0 "" "" pk s).2.2.1,
          fun ts hex hne => ?_⟩
  rw [run_linkCount cfg fail rows t0 ts]
  obtain ⟨r, hr, hts⟩ := hex
  subst hts
  have hmem := phase2_taskMap_mem cfg rows
    (phase1 cfg rows (St.mk t0 (existing_issues_index t0) [] [] []
      (List.replicate (indexPages t0.issues).2 Call.search) [])) r hr hne
  have hsc := phase3_sameCore cfg fail (phase2 cfg rows
    (phase1 cfg rows (St.mk t0 (existing_issues_index t0) [] [] []
      (List.replicate (indexPages t0.issues).2 Call.search) [])))
  rw [run_eq, hsc.2.2.2.1, if_pos hmem]

/-- C2 is false exactly as stated: the identity notion (kind plus
case-insensitive summary) does not dedup sub-tasks across parents.  With rows
`[(E, T1, S), (E, T2, S)]` on an empty destination, the one identity
(Sub-task, "s") triggers two creation calls — one under T1 and one under
T2. -/
theorem c2_counterexample :
    createsOf (run liveCfg neverFail [⟨"E", "T1", "S"⟩, ⟨"E", "T2", "S"⟩]
      emptyTracker).trace "sub-task" "s" = 2 := by decide

/-- C2 witness: the amended dedup statement at a concrete live input. -/
theorem c2_witness :
    liveCfg.dryRun = false ∧
    ((∀ s, createsOf (run liveCfg neverFail rowsA emptyTracker).trace "epic" s ≤ 1) ∧
    (∀ s, createsOf (run liveCfg neverFail rowsA emptyTracker).trace "task" s ≤ 1) ∧
    (∀ pk s, subCreatesUnder (run liveCfg neverFail rowsA emptyTracker).trace pk s ≤ 1) ∧
    (∀ ts, (∃ r ∈ rowsA, pyStrip r.task_summary = ts) → ts ≠ "" →
      linkCount (run liveCfg neverFail rowsA emptyTracker).links ts = 1)) :=
  ⟨rfl, c2_within_run_dedup liveCfg neverFail rowsA emptyTracker rfl⟩

/-! ### C4: dry-run behaviour -/

theorem countLog_append (l1 l2 : List Log) (e : Log) :
    countLog (l1 ++ l2) e = countLog l1 e + countLog l2 e := by
  simp [countLog, List.count_append]

theorem countLog_single (x e : Log) : countLog [x] e = if e = x then 1 else 0 := by
  by_cases h : e = x <;> simp [countLog, List.count_cons, h] <;> omega

theorem searches_singleton_get (k : Nat) : searches [Call.getIssue k] = 0 := rfl

theorem epicStep_C4Inv (cfg : Config) (st : St) (r : Row) (t0 : Tracker)
    (hdry : cfg.dryRun = true) (h : C4Inv t0 st) : C4Inv t0 (epicStep cfg st r) := by
  obtain ⟨h1, h2, h3, h4, h5, h6, h7, h8⟩ := h
  simp only [epicStep]
  split
  · exact ⟨h1, h2, h3, h4, h5, h6, h7, h8⟩
  split
  · exact ⟨h1, h2, h3, h4, h5, h6, h7, h8⟩
  split
  · refine ⟨h1, h2, h3, h4, h5, h6, fun s => ⟨(h7 s).1, fun hge => ?_⟩, h8⟩
    exact lookupA_isSome_append _ ((h7 s).2 hge)
  · rename_i hnotin hscrut hex
    have hmapnone : alookup st.epicMap (pyStrip r.epic_summary) = none := by
      cases hx : alookup st.epicMap (pyStrip r.epic_summary)
      · rfl
      · rw [hx] at hnotin; simp at hnotin
    refine ⟨h1, h2, h3, h4, fun s hmem => ?_, fun s hmem => ?_,
      fun s => ⟨?_, ?_⟩, fun s => ⟨?_, ?_⟩⟩
    · rcases List.mem_append.mp hmem with hm | hm
      · exact h5 s hm
      · simp only [List.mem_singleton] at hm
        simp only [Log.dryCreateEpic.injEq] at hm
        subst hm
        rw [← h2]
        exact hex
    · rcases List.mem_append.mp hmem with hm | hm
      · exact h6 s hm
      · simp at hm
    · rw [countLog_append, countLog_single]
      by_cases hs : s = pyStrip r.epic_summary
      · have hc0 : countLog st.logs (Log.dryCreateEpic s) = 0 := by
          by_contra hne
          have := (h7 s).2 (by omega)
          rw [hs, hmapnone] at this
          simp at this
        rw [hc0]
        simp [hs]
      · rw [if_neg (fun hc => hs (by injection hc))]
        have := (h7 s).1
        omega
    · intro hge
      by_cases hs : s = pyStrip r.epic_summary
      · subst hs
        rw [alookup_append_self _ _ _ hmapnone]
        rfl
      · rw [countLog_append, countLog_single,
          if_neg (fun hc => hs (by injection hc))] at hge
        exact lookupA_isSome_append _ ((h7 s).2 (by omega))
    · rw [countLog_append, countLog_single]
      rw [if_neg (fun hc => by injection hc)]
      have := (h8 s).1
      omega
    · intro hge
      rw [countLog_append, countLog_single,
        if_neg (fun hc => by injection hc)] at hge
      exact (h8 s).2 (by omega)

theorem taskPart_C4Inv (cfg : Config) (st : St) (r : Row) (t0 : Tracker)
    (hdry : cfg.dryRun = true) (h : C4Inv t0 st) : C4Inv t0 (taskPart cfg st r) := by
  obtain ⟨h1, h2, h3, h4, h5, h6, h7, h8⟩ := h
  simp only [taskPart]
  split
  · exact ⟨h1, h2, h3, h4, h5, h6, h7, h8⟩
  split
  · exact ⟨h1, h2, h3, h4, h5, h6, h7, h8⟩
  split
  · refine ⟨h1, h2, h3, h4, h5, h6, h7, fun s => ⟨(h8 s).1, fun hge => ?_⟩⟩
    exact lookupA_isSome_append _ ((h8 s).2 hge)
  · rename_i hnotin hscrut hex
    have hmapnone : alookup st.taskMap (pyStrip r.task_summary) = none := by
      cases hx : alookup st.taskMap (pyStrip r.task_summary)
      · rfl
      · rw [hx] at hnotin; simp at hnotin
    have hparts := orElse_eq_none_parts hex
    refine ⟨h1, h2, h3, h4, fun s hmem => ?_, fun s hmem => ?_,
      fun s => ⟨?_, ?_⟩, fun s => ⟨?_, ?_⟩⟩
    · rcases List.mem_append.mp hmem with hm | hm
      · exact h5 s hm
      · simp at hm
    · rcases List.mem_append.mp hmem with hm | hm
      · exact h6 s hm
      · simp only [List.mem_singleton] at hm
        simp only [Log.dryCreateTask.injEq] at hm
        subst hm
        rw [← h2]
        exact ⟨hparts.1, hparts.2⟩
    · rw [countLog_append, countLog_single]
      rw [if_neg (fun hc => by injection hc)]
      have := (h7 s).1
      omega
    · intro hge
      rw [countLog_append, countLog_single,
        if_neg (fun hc => by injection hc)] at hge
      exact (h7 s).2 (by omega)
    · rw [countLog_append, countLog_single]
      by_cases hs : s = pyStrip r.task_summary
      · have hc0 : countLog st.logs (Log.dryCreateTask s) = 0 := by
          by_contra hne
          have := (h8 s).2 (by omega)
          rw [hs, hmapnone] at this
          simp at this
        rw [hc0]
        simp [hs]
      · rw [if_neg (fun hc => hs (by injection hc))]
        have := (h8 s).1
        omega
    · intro hge
      by_cases hs : s = pyStrip r.task_summary
      · subst hs
        rw [alookup_append_self _ _ _ hmapnone]
        rfl
      · rw [countLog_append, countLog_single,
          if_neg (fun hc => hs (by injection hc))] at hge
        exact lookupA_isSome_append _ ((h8 s).2 (by omega))

theorem subPart_C4Inv (cfg : Config) (st : St) (r : Row) (t0 : Tracker)
    (hdry : cfg.dryRun = true) (h : C4Inv t0 st) : C4Inv t0 (subPart cfg st r) := by
  obtain ⟨h1, h2, h3, h4, h5, h6, h7, h8⟩ := h
  have hlogext : ∀ (x : Log) (st1 : St), C4Inv t0 st1 →
      (∀ s, x ≠ Log.dryCreateEpic s ∧ x ≠ Log.dryCreateTask s) →
      C4Inv t0 { st1 with logs := st1.logs ++ [x] } := by
    rintro x st1 ⟨g1, g2, g3, g4, g5, g6, g7, g8⟩ hx
    refine ⟨g1, g2, g3, g4, fun s hmem => ?_, fun s hmem => ?_,
      fun s => ⟨?_, ?_⟩, fun s => ⟨?_, ?_⟩⟩
    · rcases List.mem_append.mp hmem with hm | hm
      · exact g5 s hm
      · simp only [List.mem_singleton] at hm
        exact absurd hm.symm (hx s).1
    · rcases List.mem_append.mp hmem with hm | hm
      · exact g6 s hm
      · simp only [List.mem_singleton] at hm
        exact absurd hm.symm (hx s).2
    · rw [countLog_append, countLog_single,
        if_neg (fun hc => (hx s).1 hc.symm)]
      have := (g7 s).1
      omega
    · intro hge
      rw [countLog_append, countLog_single,
        if_neg (fun hc => (hx s).1 hc.symm)] at hge
      exact (g7 s).2 (by omega)
    · rw [countLog_append, countLog_single,
        if_neg (fun hc => (hx s).2 hc.symm)]
      have := (g8 s).1
      omega
    · intro hge
      rw [countLog_append, countLog_single,
        if_neg (fun hc => (hx s).2 hc.symm)] at hge
      exact (g8 s).2 (by omega)
  simp only [subPart]
  split
  · exact ⟨h1, h2, h3, h4, h5, h6, h7, h8⟩
  split
  · exact hlogext _ st ⟨h1, h2, h3, h4, h5, h6, h7, h8⟩
      (fun s => ⟨fun hc => by injection hc, fun hc => by injection hc⟩)
  · rename_i p heq
    have hst1 : C4Inv t0 { st with trace := st.trace ++ [Call.getIssue p.key] } := by
      refine ⟨h1, h2, fun c hc => ?_, ?_, h5, h6, h7, h8⟩
      · rcases List.mem_append.mp hc with hm | hm
        · exact h3 c hm
        · simp only [List.mem_singleton] at hm
          subst hm
          exact ⟨rfl, rfl⟩
      · rw [searches_append, searches_singleton_get, h4]
        omega
    split
    · exact hst1
    · exact hlogext _ _ hst1
        (fun s => ⟨fun hc => by injection hc, fun hc => by injection hc⟩)
  · exact hlogext _ st ⟨h1, h2, h3, h4, h5, h6, h7, h8⟩
      (fun s => ⟨fun hc => by injection hc, fun hc => by injection hc⟩)

theorem phase3_C4Inv (cfg : Config) (fail : LinkFail) (st : St) (t0 : Tracker)
    (hdry : cfg.dryRun = true) (h : C4Inv t0 st) : C4Inv t0 (phase3 cfg fail st) := by
  unfold phase3
  rw [if_pos hdry]
  obtain ⟨g1, g2, g3, g4, g5, g6, g7, g8⟩ := h
  refine ⟨g1, g2, g3, g4, fun s hmem => ?_, fun s hmem => ?_,
    fun s => ⟨?_, ?_⟩, fun s => ⟨?_, ?_⟩⟩
  · rcases List.mem_append.mp hmem with hm | hm
    · exact g5 s hm
    · simp at hm
  · rcases List.mem_append.mp hmem with hm | hm
    · exact g6 s hm
    · simp at hm
  · rw [countLog_append, countLog_single, if_neg (fun hc => by injection hc)]
    have := (g7 s).1
    omega
  · intro hge
    rw [countLog_append, countLog_single, if_neg (fun hc => by injection hc)] at hge
    exact (g7 s).2 (by omega)
  · rw [countLog_append, countLog_single, if_neg (fun hc => by injection hc)]
    have := (g8 s).1
    omega
  · intro hge
    rw [countLog_append, countLog_single, if_neg (fun hc => by injection hc)] at hge
    exact (g8 s).2 (by omega)

theorem run_C4Inv (cfg : Config) (fail : LinkFail) (rows : List Row) (t0 : Tracker)
    (hdry : cfg.dryRun = true) : C4Inv t0 (run cfg fail rows t0) := by
  rw [run_eq]
  have h0 : C4Inv t0 (St.mk t0 (existing_issues_index t0) [] [] []
      (List.replicate (indexPages t0.issues).2 Call.search) []) := by
    refine ⟨rfl, rfl, fun c hc => ?_, searches_replicate _, fun s hmem => ?_,
      fun s hmem => ?_, fun s => ⟨?_, ?_⟩, fun s => ⟨?_, ?_⟩⟩
    · rw [List.eq_of_mem_replicate hc]
      exact ⟨rfl, rfl⟩
    · simp at hmem
    · simp at hmem
    · simp [countLog]
    · intro hge
      simp [countLog] at hge
    · simp [countLog]
    · intro hge
      simp [countLog] at hge
  have h1 := foldl_invariant (epicStep cfg) (C4Inv t0) rows _ h0
    (fun r _ s hs => epicStep_C4Inv cfg s r t0 hdry hs)
  have h2 := foldl_invariant (rowStep2 cfg) (C4Inv t0) rows _ h1
    (fun r _ s hs => subPart_C4Inv cfg _ r t0 hdry
      (taskPart_C4Inv cfg s r t0 hdry hs))
  exact phase3_C4Inv cfg fail _ t0 hdry h2

/-- C4 (amended): in a dry run the destination is never mutated — the
tracker is unchanged and the trace holds no creation or linking calls —
but the initial index build is *not* skipped (at least one search call is
issued) and decisions are *not* unconditional: a "would create" line for
an epic (resp. task) is emitted only when the summary is absent from the
destination index (for tasks, absent under both the Task and Story kinds),
and within-CSV repeats collapse, so each would-create line appears at most
once per summary. -/
theorem c4_dry_run_amended (cfg : Config) (fail : LinkFail) (rows : List Row)
    (t0 : Tracker) (hdry : cfg.dryRun = true) :
    (run cfg fail rows t0).tracker = t0 ∧
    (∀ c ∈ (run cfg fail rows t0).trace, isCreate c = false ∧ isLink c = false) ∧
    1 ≤ searches (run cfg fail rows t0).trace ∧
    (∀ s, Log.dryCreateEpic s ∈ (run cfg fail rows t0).logs →
      issue_exists (existing_issues_index t0) "Epic" s = none) ∧
    (∀ s, Log.dryCreateTask s ∈ (run cfg fail rows t0).logs →
      issue_exists (existing_issues_index t0) "Task" s = none ∧
      issue_exists (existing_issues_index t0) "Story" s = none) ∧
    (∀ s, countLog (run cfg fail rows t0).logs (Log.dryCreateEpic s) ≤ 1) ∧
    (∀ s, countLog (run cfg fail rows t0).logs (Log.dryCreateTask s) ≤ 1) := by
  obtain ⟨h1, h2, h3, h4, h5, h6, h7, h8⟩ := run_C4Inv cfg fail rows t0 hdry
  refine ⟨h1, h3, ?_, h5, h6, fun s => (h7 s).1, fun s => (h8 s).1⟩
  rw [h4, indexPages_spec]
  omega

/-- C4 counterexample: a dry run against a destination already holding the
epic "E" issues two search calls (the index build is not skipped) and emits
no "would create" line for "E" — the reported decision is "reuse", refuting
the claim that the index build is skipped and that every identity is
reported as "would create" unconditionally. -/
theorem c4_counterexample :
    searches (run dryCfg neverFail [⟨"E", "T", ""⟩]
      ⟨[⟨0, "Epic", "E", none⟩], 1⟩).trace = 2 ∧
    Log.dryCreateEpic "E" ∉ (run dryCfg neverFail [⟨"E", "T", ""⟩]
      ⟨[⟨0, "Epic", "E", none⟩], 1⟩).logs ∧
    alookup (run dryCfg neverFail [⟨"E", "T", ""⟩]
      ⟨[⟨0, "Epic", "E", none⟩], 1⟩).epicMap "E"
      = some (Handle.real ⟨0, "Epic", "E", none⟩) := by decide

/-- Witness for C4: the amended theorem applied to a concrete dry run of one
row against an empty destination. -/
theorem c4_witness :
    dryCfg.dryRun = true ∧
    ((run dryCfg neverFail [⟨"E", "T", "S"⟩] emptyTracker).tracker = emptyTracker ∧
     (∀ c ∈ (run dryCfg neverFail [⟨"E", "T", "S"⟩] emptyTracker).trace,
        isCreate c = false ∧ isLink c = false) ∧
     1 ≤ searches (run dryCfg neverFail [⟨"E", "T", "S"⟩] emptyTracker).trace ∧
     (∀ s, Log.dryCreateEpic s ∈ (run dryCfg neverFail [⟨"E", "T", "S"⟩] emptyTracker).logs →
        issue_exists (existing_issues_index emptyTracker) "Epic" s = none) ∧
     (∀ s, Log.dryCreateTask s ∈ (run dryCfg neverFail [⟨"E", "T", "S"⟩] emptyTracker).logs →
        issue_exists (existing_issues_index emptyTracker) "Task" s = none ∧
        issue_exists (existing_issues_index emptyTracker) "Story" s = none) ∧
     (∀ s, countLog (run dryCfg neverFail [⟨"E", "T", "S"⟩] emptyTracker).logs
        (Log.dryCreateEpic s) ≤ 1) ∧
     (∀ s, countLog (run dryCfg neverFail [⟨"E", "T", "S"⟩] emptyTracker).logs
        (Log.dryCreateTask s) ≤ 1)) :=
  ⟨rfl, c4_dry_run_amended dryCfg neverFail [⟨"E", "T", "S"⟩] emptyTracker rfl⟩

theorem addLink_self_mem (links : List (String × List String)) (k v : String) :
    ∃ l, (k, l) ∈ addLink links k v ∧ v ∈ l := by
  induction links with
  | nil => exact ⟨[v], by simp [addLink], by simp⟩
  | cons e rest ih =>
    simp only [addLink]
    split
    · rename_i hb
      have he : e.1 = k := beq_iff_eq.mp hb
      exact ⟨e.2 ++ [v], by rw [← he]; exact List.mem_cons_self _ _, by simp⟩
    · obtain ⟨l, hl, hv⟩ := ih
      exact ⟨l, List.mem_cons_of_mem _ hl, hv⟩

theorem addLink_preserves_mem (links : List (String × List String)) (k v k' v' : String)
    (h : ∃ l, (k, l) ∈ links ∧ v ∈ l) :
    ∃ l, (k, l) ∈ addLink links k' v' ∧ v ∈ l := by
  induction links with
  | nil => obtain ⟨l, hl, _⟩ := h; simp at hl
  | cons e rest ih =>
    obtain ⟨ek, el⟩ := e
    obtain ⟨l, hl, hv⟩ := h
    simp only [addLink]
    split
    · rcases List.mem_cons.mp hl with hh | ht
      · rw [Prod.mk.injEq] at hh
        obtain ⟨hk, hl2⟩ := hh
        subst hk
        subst hl2
        exact ⟨l ++ [v'], List.mem_cons_self _ _, List.mem_append_left _ hv⟩
      · exact ⟨l, List.mem_cons_of_mem _ ht, hv⟩
    · rcases List.mem_cons.mp hl with hh | ht
      · exact ⟨l, by rw [hh]; exact List.mem_cons_self _ _, hv⟩
      · obtain ⟨l2, hl2, hv2⟩ := ih ⟨l, ht, hv⟩
        exact ⟨l2, List.mem_cons_of_mem _ hl2, hv2⟩

theorem taskPart_epicMap (cfg : Config) (st : St) (r : Row) :
    (taskPart cfg st r).epicMap = st.epicMap := by
  simp only [taskPart]
  repeat' split
  all_goals rfl

theorem subPart_epicMap (cfg : Config) (st : St) (r : Row) :
    (subPart cfg st r).epicMap = st.epicMap := by
  simp only [subPart]
  repeat' split
  all_goals rfl

theorem taskPart_links_cases (cfg : Config) (st : St) (r : Row) :
    (taskPart cfg st r).links = st.links ∨
    (taskPart cfg st r).links =
      addLink st.links (pyStrip r.epic_summary) (pyStrip r.task_summary) := by
  simp only [taskPart]
  repeat' split
  all_goals first | exact Or.inl rfl | exact Or.inr rfl

theorem taskPart_links_new (cfg : Config) (st : St) (r : Row)
    (hts : pyStrip r.task_summary ≠ "")
    (hnone : alookup st.taskMap (pyStrip r.task_summary) = none) :
    (taskPart cfg st r).links =
      addLink st.links (pyStrip r.epic_summary) (pyStrip r.task_summary) := by
  simp only [taskPart]
  rw [if_neg hts, hnone]
  have hc : ¬(((none : Option Handle).isSome) = true) := by simp
  rw [if_neg hc]
  split
  · rfl
  · split
    · rfl
    · rfl

theorem taskPart_taskMap_ne (cfg : Config) (st : St) (r : Row) (ts : String)
    (h : ts ≠ pyStrip r.task_summary) :
    alookup (taskPart cfg st r).taskMap ts = alookup st.taskMap ts := by
  simp only [taskPart]
  repeat' split
  all_goals first
    | rfl
    | exact alookup_append_single_ne _ _ _ _ h

theorem epicStep_epicMap_blank (cfg : Config) (st : St) (r : Row)
    (h : alookup st.epicMap "" = none) :
    alookup (epicStep cfg st r).epicMap "" = none := by
  simp only [epicStep]
  split
  · exact h
  rename_i hne
  split
  · exact h
  split
  · rw [alookup_append_single_ne _ _ _ _ (fun he => hne he.symm)]
    exact h
  · split
    · rw [alookup_append_single_ne _ _ _ _ (fun he => hne he.symm)]
      exact h
    · rw [alookup_append_single_ne _ _ _ _ (fun he => hne he.symm)]
      exact h

theorem rowStep2_hasLink (cfg : Config) (st : St) (r : Row) (k v : String)
    (h : ∃ l, (k, l) ∈ st.links ∧ v ∈ l) :
    ∃ l, (k, l) ∈ (rowStep2 cfg st r).links ∧ v ∈ l := by
  rw [show rowStep2 cfg st r = subPart cfg (taskPart cfg st r) r from rfl,
    (subPart_taskMap_links cfg _ r).2]
  rcases taskPart_links_cases cfg st r with hc | hc
  · rw [hc]; exact h
  · rw [hc]; exact addLink_preserves_mem _ _ _ _ _ h

theorem foldl_taskMap_none (cfg : Config) :
    ∀ (l : List Row) (st : St) (ts : String),
      alookup st.taskMap ts = none →
      (∀ r' ∈ l, pyStrip r'.task_summary ≠ ts) →
      alookup (l.foldl (rowStep2 cfg) st).taskMap ts = none := by
  intro l
  induction l with
  | nil => intro st ts h _; exact h
  | cons x rest ih =>
    intro st ts h hl
    simp only [List.foldl_cons]
    refine ih _ ts ?_ (fun r' hr' => hl r' (List.mem_cons_of_mem _ hr'))
    rw [show rowStep2 cfg st x = subPart cfg (taskPart cfg st x) x from rfl,
      (subPart_taskMap_links cfg _ x).1,
      taskPart_taskMap_ne cfg st x ts
        (fun he => (hl x (List.mem_cons_self _ _)) he.symm)]
    exact h

theorem phase1_taskMap_links (cfg : Config) (rows : List Row) (st : St) :
    (phase1 cfg rows st).taskMap = st.taskMap ∧ (phase1 cfg rows st).links = st.links := by
  unfold phase1
  exact foldl_invariant (epicStep cfg)
    (fun s => s.taskMap = st.taskMap ∧ s.links = st.links) rows st ⟨rfl, rfl⟩
    (fun r _ s hs => by
      obtain ⟨e1, e2⟩ := epicStep_taskMap_links cfg s r
      exact ⟨e1.trans hs.1, e2.trans hs.2⟩)

theorem linkGroup_skip (cfg : Config) (fail : LinkFail) (st : St)
    (g : String × List String) (h : alookup st.epicMap g.1 = none) :
    linkGroup cfg fail st g = st := by
  unfold linkGroup
  rw [h]

/-- C10 (amended): for a row whose epic summary strips to the empty string
but whose task summary is non-blank, *provided no earlier row already used
that task summary*, the task is still created (or reused) and is recorded
under the empty-string key of the link plan; the epic map never acquires an
empty-summary entry, and the link loop silently skips (returns the state
unchanged — no call, no warning) any group whose epic summary has no epic
handle, so such a task is never linked through its own blank-epic group.
If an earlier row already used the task summary, the within-run dedup skips
the whole TASK block, so nothing is recorded under the empty key (and the
task may even be linked to the earlier row's epic). -/
theorem c10_blank_epic_amended (cfg : Config) (fail : LinkFail)
    (pre post : List Row) (r : Row) (t0 : Tracker)
    (hblank : pyStrip r.epic_summary = "")
    (hts : pyStrip r.task_summary ≠ "")
    (hfirst : ∀ r' ∈ pre, pyStrip r'.task_summary ≠ pyStrip r.task_summary) :
    (alookup (run cfg fail (pre ++ r :: post) t0).taskMap
      (pyStrip r.task_summary)).isSome ∧
    (∃ l, ("", l) ∈ (run cfg fail (pre ++ r :: post) t0).links ∧
      pyStrip r.task_summary ∈ l) ∧
    alookup (run cfg fail (pre ++ r :: post) t0).epicMap "" = none ∧
    (∀ st g, alookup st.epicMap g.1 = none → linkGroup cfg fail st g = st) := by
  have hsc := phase3_sameCore cfg fail (phase2 cfg (pre ++ r :: post)
    (phase1 cfg (pre ++ r :: post) (St.mk t0 (existing_issues_index t0) [] [] []
      (List.replicate (indexPages t0.issues).2 Call.search) [])))
  refine ⟨?_, ?_, ?_, fun st g h => linkGroup_skip cfg fail st g h⟩
  · rw [run_eq, hsc.2.2.2.1]
    exact phase2_taskMap_mem cfg (pre ++ r :: post)
      (phase1 cfg (pre ++ r :: post) (St.mk t0 (existing_issues_index t0) [] [] []
        (List.replicate (indexPages t0.issues).2 Call.search) [])) r
      (List.mem_append_right _ (List.mem_cons_self _ _)) hts
  · rw [run_eq, hsc.2.2.2.2]
    show ∃ l, ("", l) ∈ (phase2 cfg (pre ++ r :: post) _).links ∧ _
    unfold phase2
    rw [List.foldl_append, List.foldl_cons]
    have hP1 := phase1_taskMap_links cfg (pre ++ r :: post)
      (St.mk t0 (existing_issues_index t0) [] [] []
        (List.replicate (indexPages t0.issues).2 Call.search) [])
    have hnone : alookup (pre.foldl (rowStep2 cfg)
        (phase1 cfg (pre ++ r :: post) (St.mk t0 (existing_issues_index t0) [] [] []
          (List.replicate (indexPages t0.issues).2 Call.search) []))).taskMap
        (pyStrip r.task_summary) = none := by
      refine foldl_taskMap_none cfg pre _ _ ?_ hfirst
      rw [hP1.1]
      rfl
    have hstart : ∃ l, ("", l) ∈ (rowStep2 cfg (pre.foldl (rowStep2 cfg)
        (phase1 cfg (pre ++ r :: post) (St.mk t0 (existing_issues_index t0) [] [] []
          (List.replicate (indexPages t0.issues).2 Call.search) []))) r).links ∧
        pyStrip r.task_summary ∈ l := by
      rw [show ∀ s, rowStep2 cfg s r = subPart cfg (taskPart cfg s r) r from fun _ => rfl,
        (subPart_taskMap_links cfg _ r).2,
        taskPart_links_new cfg _ r hts hnone, hblank]
      exact addLink_self_mem _ _ _
    exact foldl_invariant (rowStep2 cfg)
      (fun s => ∃ l, ("", l) ∈ s.links ∧ pyStrip r.task_summary ∈ l)
      post _ hstart (fun r' _ s hs => rowStep2_hasLink cfg s r' _ _ hs)
  · rw [run_eq, hsc.2.2.1]
    show alookup (phase2 cfg (pre ++ r :: post) _).epicMap "" = none
    unfold phase2
    refine foldl_invariant (rowStep2 cfg)
      (fun s => alookup s.epicMap "" = none) _ _ ?_
      (fun r' _ s hs => ?_)
    · show alookup (phase1 cfg (pre ++ r :: post) _).epicMap "" = none
      unfold phase1
      exact foldl_invariant (epicStep cfg)
        (fun s => alookup s.epicMap "" = none) _ _ rfl
        (fun r' _ s hs => epicStep_epicMap_blank cfg s r' hs)
    · show alookup (subPart cfg (taskPart cfg s r') r').epicMap "" = none
      rw [subPart_epicMap, taskPart_epicMap]
      exact hs

/-- C10 is false exactly as stated: "the task is still created (or reused)
and recorded under the empty-string epic key, and never linked to any epic"
fails when the task summary already appeared under a real epic.  With rows
`[(E, T, -), (-, T, -)]` on an empty destination, the blank-epic row's task
collapses onto the first row: the link plan is just `[(E, [T])]` — nothing is
recorded under the empty key — and the task *is* linked (to epic E). -/
theorem c10_counterexample :
    (run liveCfg neverFail [⟨"E", "T", ""⟩, ⟨"", "T", ""⟩] emptyTracker).links
      = [("E", ["T"])] ∧
    Call.addToEpic 0 [1] ∈ (run liveCfg neverFail [⟨"E", "T", ""⟩, ⟨"", "T", ""⟩]
      emptyTracker).trace := by decide

/-- Witness for C10: the amended theorem at a single blank-epic row against
an empty destination. -/
theorem c10_witness :
    pyStrip (Row.mk "" "T" "").epic_summary = "" ∧
    pyStrip (Row.mk "" "T" "").task_summary ≠ "" ∧
    ((alookup (run liveCfg neverFail ([] ++ Row.mk "" "T" "" :: []) emptyTracker).taskMap
        (pyStrip (Row.mk "" "T" "").task_summary)).isSome ∧
     (∃ l, ("", l) ∈ (run liveCfg neverFail ([] ++ Row.mk "" "T" "" :: [])
        emptyTracker).links ∧ pyStrip (Row.mk "" "T" "").task_summary ∈ l) ∧
     alookup (run liveCfg neverFail ([] ++ Row.mk "" "T" "" :: [])
        emptyTracker).epicMap "" = none ∧
     (∀ st g, alookup st.epicMap g.1 = none → linkGroup liveCfg neverFail st g = st)) :=
  ⟨by decide, by decide,
   c10_blank_epic_amended liveCfg neverFail [] [] (Row.mk "" "T" "") emptyTracker
     (by decide) (by decide) (by simp)⟩

theorem epicPresent_exists (t0 : Tracker) (s : String) (h : epicPresent t0 s) :
    (issue_exists (existing_issues_index t0) "Epic" s).isSome := by
  obtain ⟨i, hm, hk, hs⟩ := h
  rw [existing_issues_index_eq]
  have hc := buildIdx_complete t0.issues i hm
  rw [hk, hs] at hc
  unfold issue_exists
  rw [pyLower_epic_lit]
  exact hc

theorem taskPresent_resolve (t0 : Tracker) (s : String) (h : taskPresent t0 s) :
    (resolveTask t0 s).isSome := by
  obtain ⟨i, hm, hk, hs⟩ := h
  have hc := buildIdx_complete t0.issues i hm
  rw [hs] at hc
  unfold resolveTask issue_exists
  rw [existing_issues_index_eq, pyLower_task_lit, pyLower_story_lit]
  rcases hk with hk | hk
  · rw [hk] at hc
    obtain ⟨v, hv⟩ := Option.isSome_iff_exists.mp hc
    rw [hv]
    rfl
  · rw [hk] at hc
    cases hx : idxFind (buildIdx t0.issues) ("task", pyLower s) with
    | some v => rfl
    | none =>
      obtain ⟨v, hv⟩ := Option.isSome_iff_exists.mp hc
      rw [hv]
      rfl

theorem resolveTask_mem (t0 : Tracker) (s : String) (p : Issue)
    (h : resolveTask t0 s = some p) : p ∈ t0.issues := by
  unfold resolveTask issue_exists at h
  rw [existing_issues_index_eq] at h
  cases hx : idxFind (buildIdx t0.issues) (pyLower "Task", pyLower s) with
  | some v =>
    rw [hx] at h
    have h' : some v = some p := h
    exact (Option.some_inj.mp h') ▸ (buildIdx_sound t0.issues _ v hx).1
  | none =>
    rw [hx] at h
    have h' : idxFind (buildIdx t0.issues) (pyLower "Story", pyLower s) = some p := h
    exact (buildIdx_sound t0.issues _ p h').1

theorem epicStep_C1Inv (cfg : Config) (st : St) (r : Row) (t0 : Tracker)
    (hE : pyStrip r.epic_summary ≠ "" → epicPresent t0 (pyStrip r.epic_summary))
    (h : C1Inv t0 st) : C1Inv t0 (epicStep cfg st r) := by
  obtain ⟨h1, h2, h3, h4⟩ := h
  simp only [epicStep]
  split
  · exact ⟨h1, h2, h3, h4⟩
  rename_i hne
  split
  · exact ⟨h1, h2, h3, h4⟩
  split
  · exact ⟨h1, h2, h3, h4⟩
  · rename_i hscrut
    exfalso
    have hiso := epicPresent_exists t0 (pyStrip r.epic_summary) (hE hne)
    rw [← h2] at hiso
    rw [hscrut] at hiso
    simp at hiso

theorem taskPart_C1Inv (cfg : Config) (st : St) (r : Row) (t0 : Tracker)
    (hT : pyStrip r.task_summary ≠ "" → taskPresent t0 (pyStrip r.task_summary))
    (h : C1Inv t0 st) : C1Inv t0 (taskPart cfg st r) := by
  obtain ⟨h1, h2, h3, h4⟩ := h
  simp only [taskPart]
  split
  · exact ⟨h1, h2, h3, h4⟩
  rename_i hne
  split
  · exact ⟨h1, h2, h3, h4⟩
  split
  · rename_i existing hscrut
    refine ⟨h1, h2, ?_, h4⟩
    intro s h' hx
    simp only [alookup] at hx h3
    cases hy : lookupA st.taskMap s with
    | some w =>
      rw [lookupA_append_left _ (show (lookupA st.taskMap s).isSome by rw [hy]; rfl)] at hx
      exact h3 s h' hx
    | none =>
      rw [lookupA_append_right _ hy, lookupA_singleton] at hx
      by_cases hb : (pyStrip r.task_summary == s) = true
      · rw [if_pos hb] at hx
        have hs : pyStrip r.task_summary = s := beq_iff_eq.mp hb
        refine ⟨existing, (Option.some_inj.mp hx).symm, ?_⟩
        rw [h2] at hscrut
        rw [← hs]
        exact hscrut
      · rw [if_neg hb] at hx
        exact Option.noConfusion hx
  · rename_i hscrut
    exfalso
    have hiso := taskPresent_resolve t0 (pyStrip r.task_summary) (hT hne)
    rw [h2] at hscrut
    have hnone : resolveTask t0 (pyStrip r.task_summary) = none := hscrut
    rw [hnone] at hiso
    simp at hiso

theorem subPart_C1Inv (cfg : Config) (st : St) (r : Row) (t0 : Tracker)
    (hS : pyStrip r.subtask_summary ≠ "" → ∀ p ∈ t0.issues,
      resolveTask t0 (pyStrip r.task_summary) = some p →
        subPresentFor t0 p.key (pyStrip r.subtask_summary))
    (h : C1Inv t0 st) : C1Inv t0 (subPart cfg st r) := by
  obtain ⟨h1, h2, h3, h4⟩ := h
  simp only [subPart]
  split
  · exact ⟨h1, h2, h3, h4⟩
  rename_i hne
  split
  · exact ⟨h1, h2, h3, h4⟩
  · rename_i p hscrut
    obtain ⟨q, hq, hres⟩ := h3 _ _ hscrut
    have hpq : p = q := by injection hq
    subst hpq
    have hsub := hS hne p (resolveTask_mem t0 _ p hres) hres
    have hfind : ((t0.issues.filter (fun i => i.parent == some p.key)).find?
        (fun i => pyLower i.summary == pyLower (pyStrip r.subtask_summary))).isSome :=
      (find_sub_isSome_iff t0.issues p.key (pyLower (pyStrip r.subtask_summary))).mpr hsub
    rw [h1, if_pos hfind]
    refine ⟨rfl, h2, h3, fun c hc => ?_⟩
    rcases List.mem_append.mp hc with hm | hm
    · exact h4 c hm
    · simp only [List.mem_singleton] at hm
      rw [hm]
      rfl
  · rename_i hscrut
    obtain ⟨q, hq, _⟩ := h3 _ _ hscrut
    exact Handle.noConfusion hq

/-- C1: across-run idempotency.  For every CSV input, failure oracle and
configuration, if the destination already holds every identity the run
would create — each non-blank epic summary is present as an Epic, each
non-blank task summary as a Task or Story, and each non-blank sub-task
summary under its row's resolved parent task — and the destination does not
change during the run (live reads go to the same tracker the index was
built from), then the run issues zero creation calls, leaves the
destination untouched, and every task-map entry is an existing destination
issue found by task resolution (reuse). -/
theorem c1_across_run_idempotency (cfg : Config) (fail : LinkFail) (rows : List Row)
    (t0 : Tracker)
    (hE : ∀ r ∈ rows, pyStrip r.epic_summary ≠ "" → epicPresent t0 (pyStrip r.epic_summary))
    (hT : ∀ r ∈ rows, pyStrip r.task_summary ≠ "" → taskPresent t0 (pyStrip r.task_summary))
    (hS : ∀ r ∈ rows, pyStrip r.subtask_summary ≠ "" → ∀ p ∈ t0.issues,
      resolveTask t0 (pyStrip r.task_summary) = some p →
        subPresentFor t0 p.key (pyStrip r.subtask_summary)) :
    creations (run cfg fail rows t0).trace = 0 ∧
    (run cfg fail rows t0).tracker = t0 ∧
    (∀ s h, alookup (run cfg fail rows t0).taskMap s = some h →
      ∃ p, h = Handle.real p ∧ resolveTask t0 s = some p) := by
  have h0 : C1Inv t0 (St.mk t0 (existing_issues_index t0) [] [] []
      (List.replicate (indexPages t0.issues).2 Call.search) []) := by
    refine ⟨rfl, rfl, ?_, ?_⟩
    · intro s h hx
      exact Option.noConfusion hx
    · intro c hc
      rw [List.eq_of_mem_replicate hc]
      rfl
  rw [run_eq]
  have h1 := foldl_invariant (epicStep cfg) (C1Inv t0) rows _ h0
    (fun r hr s hs => epicStep_C1Inv cfg s r t0 (hE r hr) hs)
  have h2 := foldl_invariant (rowStep2 cfg) (C1Inv t0) rows _ h1
    (fun r hr s hs => subPart_C1Inv cfg _ r t0 (hS r hr)
      (taskPart_C1Inv cfg s r t0 (hT r hr) hs))
  obtain ⟨g1, g2, g3, g4⟩ := h2
  have hsc := phase3_sameCore cfg fail (phase2 cfg rows (phase1 cfg rows
    (St.mk t0 (existing_issues_index t0) [] [] []
      (List.replicate (indexPages t0.issues).2 Call.search) [])))
  obtain ⟨d, hd, hall⟩ := phase3_trace cfg fail (phase2 cfg rows (phase1 cfg rows
    (St.mk t0 (existing_issues_index t0) [] [] []
      (List.replicate (indexPages t0.issues).2 Call.search) [])))
  refine ⟨?_, ?_, ?_⟩
  · apply creations_eq_zero
    intro c hc
    rw [hd] at hc
    rcases List.mem_append.mp hc with hm | hm
    · exact g4 c hm
    · have hl := hall c hm
      cases c
      · rfl
      · simp [isLink] at hl
      · rfl
      · rfl
  · rw [hsc.1]
    exact g1
  · rw [hsc.2.2.2.1]
    exact g3

/-- Witness for C1: a second identical run against a destination left by a
previous run of the one-row CSV (epic E, task T, sub-task S all present)
issues zero creation calls and leaves the tracker unchanged. -/
theorem c1_witness :
    (∀ r ∈ [Row.mk "E" "T" "S"], pyStrip r.epic_summary ≠ "" →
      epicPresent (Tracker.mk [Issue.mk 0 "Epic" "E" none, Issue.mk 1 "Task" "T" none,
        Issue.mk 2 "Sub-task" "S" (some 1)] 3) (pyStrip r.epic_summary)) ∧
    (∀ r ∈ [Row.mk "E" "T" "S"], pyStrip r.task_summary ≠ "" →
      taskPresent (Tracker.mk [Issue.mk 0 "Epic" "E" none, Issue.mk 1 "Task" "T" none,
        Issue.mk 2 "Sub-task" "S" (some 1)] 3) (pyStrip r.task_summary)) ∧
    (∀ r ∈ [Row.mk "E" "T" "S"], pyStrip r.subtask_summary ≠ "" →
      ∀ p ∈ (Tracker.mk [Issue.mk 0 "Epic" "E" none, Issue.mk 1 "Task" "T" none,
          Issue.mk 2 "Sub-task" "S" (some 1)] 3).issues,
        resolveTask (Tracker.mk [Issue.mk 0 "Epic" "E" none, Issue.mk 1 "Task" "T" none,
          Issue.mk 2 "Sub-task" "S" (some 1)] 3) (pyStrip r.task_summary) = some p →
          subPresentFor (Tracker.mk [Issue.mk 0 "Epic" "E" none, Issue.mk 1 "Task" "T" none,
            Issue.mk 2 "Sub-task" "S" (some 1)] 3) p.key (pyStrip r.subtask_summary)) ∧
    (creations (run liveCfg neverFail [Row.mk "E" "T" "S"]
      (Tracker.mk [Issue.mk 0 "Epic" "E" none, Issue.mk 1 "Task" "T" none,
        Issue.mk 2 "Sub-task" "S" (some 1)] 3)).trace = 0 ∧
     (run liveCfg neverFail [Row.mk "E" "T" "S"]
      (Tracker.mk [Issue.mk 0 "Epic" "E" none, Issue.mk 1 "Task" "T" none,
        Issue.mk 2 "Sub-task" "S" (some 1)] 3)).tracker =
      Tracker.mk [Issue.mk 0 "Epic" "E" none, Issue.mk 1 "Task" "T" none,
        Issue.mk 2 "Sub-task" "S" (some 1)] 3 ∧
     (∀ s h, alookup (run liveCfg neverFail [Row.mk "E" "T" "S"]
        (Tracker.mk [Issue.mk 0 "Epic" "E" none, Issue.mk 1 "Task" "T" none,
          Issue.mk 2 "Sub-task" "S" (some 1)] 3)).taskMap s = some h →
       ∃ p, h = Handle.real p ∧ resolveTask (Tracker.mk [Issue.mk 0 "Epic" "E" none,
         Issue.mk 1 "Task" "T" none, Issue.mk 2 "Sub-task" "S" (some 1)] 3) s = some p)) :=
  ⟨by unfold epicPresent; decide, by unfold taskPresent; decide,
   by unfold subPresentFor; decide,
   c1_across_run_idempotency liveCfg neverFail [Row.mk "E" "T" "S"]
     (Tracker.mk [Issue.mk 0 "Epic" "E" none, Issue.mk 1 "Task" "T" none,
       Issue.mk 2 "Sub-task" "S" (some 1)] 3)
     (by unfold epicPresent; decide) (by unfold taskPresent; decide)
     (by unfold subPresentFor; decide)⟩
